import Mathlib

/-
Verification of the Gaudi connection tool (topology matching and concurrent
verification engine) against its natural-language specification.

The definitions below are shallow embeddings of the Python sources:
  src/connectivity/GaudiRouting.py   (descriptor parsing, topology matching)
  src/connectivity/RunConnection.py  (port-health filtering)
  src/devices/GaudiDeviceFactory.py  (active-port view)
  src/runner/AsyncPerfRunner.py      (result classification, aggregation,
                                      priority queue, worker pool)
  src/runner/PerfRunner.py           (benchmark command construction)
  main_gc.py                         (sequential run summary)

Python integers are modelled as Int (module ids, ports, exit codes), dicts as
association lists with insertion-order iteration and overwrite-on-assignment,
and Python dict lookups as first-match search on those lists.
-/

namespace GaudiConn

/-- One endpoint of a logical link: the parsed `{module_id, port}` record built
by `GaudiRouting.parse_connectivity_file`. -/
structure Endpoint where
  module_id : Int
  port : Int
deriving DecidableEq, Repr

/-- A logical link from the connectivity descriptor: the
`{source, destination}` record of `GaudiRouting.parse_connectivity_file`. -/
structure Connection where
  source : Endpoint
  destination : Endpoint
deriving DecidableEq, Repr

/-- A matched link as returned by `GaudiRouting.match_devices_to_connections`:
the logical endpoints plus the bus ids of the resolved devices. -/
structure MatchedConnection where
  source : Endpoint
  destination : Endpoint
  source_device_id : String
  dest_device_id : String
deriving DecidableEq, Repr

/-- Python dict assignment `d[k] = v` on an insertion-ordered association
list: overwrite in place if the key exists, else append. -/
def dictUpsert {α β : Type} [DecidableEq α] (m : List (α × β)) (k : α)
    (v : β) : List (α × β) :=
  if m.any (fun p => p.1 = k) then
    m.map (fun p => if p.1 = k then (k, v) else p)
  else
    m ++ [(k, v)]

/-- Python dict lookup `k in d` / `d[k]` on an association list. -/
def dictFind {α β : Type} [DecidableEq α] (m : List (α × β)) (k : α) :
    Option β :=
  (m.find? (fun p => p.1 = k)).map (fun p => p.2)

/-- The `module_to_bus_id` map built by
`GaudiRouting.match_devices_to_connections` (lines 166-169): iterate the
device dict (bus id, module id) and record `module_to_bus_id[module_id] =
bus_id` for every device whose `module_id` field is present and not None. -/
def module_to_bus_id (devices : List (String × Option Int)) :
    List (Int × String) :=
  devices.foldl
    (fun acc d =>
      match d.2 with
      | some m => dictUpsert acc m d.1
      | none => acc)
    []

/-- The loop body of `GaudiRouting.match_devices_to_connections`
(lines 173-197): connections whose source and destination module ids are
equal are skipped with a bare `continue` (line 180-181); a connection is
emitted exactly when both module ids are keys of `module_to_bus_id`
(line 184), every other connection falls through the loop with no effect. -/
def matchConn (devices : List (String × Option Int)) (conn : Connection) :
    Option MatchedConnection :=
  if conn.source.module_id = conn.destination.module_id then none
  else
    match dictFind (module_to_bus_id devices) conn.source.module_id,
          dictFind (module_to_bus_id devices) conn.destination.module_id with
    | some sb, some db =>
        some ⟨conn.source, conn.destination, sb, db⟩
    | _, _ => none

/-- Embedding of `GaudiRouting.match_devices_to_connections`
(lines 142-199). Nothing besides the matched list is returned: no counters
and no skip records. -/
def match_devices_to_connections (connections : List Connection)
    (devices : List (String × Option Int)) : List MatchedConnection :=
  if connections.isEmpty then []
  else connections.filterMap (matchConn devices)

/-- Spec-side count, following the specification's words: the number of
logical links where `source.module_id == destination.module_id`, which the
spec requires the Topology Matcher to report as the same-module skip count. -/
def spec_same_module_skips (connections : List Connection) : Nat :=
  connections.countP
    (fun c => c.source.module_id = c.destination.module_id)

/-- Spec-side count, following the specification's words: the number of
non-self-loop links dropped because the source or the destination module id
has no matching physical device, which the spec requires the Topology Matcher
to report (naming side and module id). -/
def spec_missing_device_skips (devices : List (String × Option Int))
    (connections : List Connection) : Nat :=
  connections.countP
    (fun c =>
      c.source.module_id ≠ c.destination.module_id ∧
      (dictFind (module_to_bus_id devices) c.source.module_id = none ∨
       dictFind (module_to_bus_id devices) c.destination.module_id = none))

/-
Descriptor parsing: GaudiRouting.parse_connectivity_file (lines 35-102).
The file is read with csv.reader(f, delimiter='\t', skipinitialspace=True).
Lines are modelled as List Char. The embedding covers the quote-free
fragment of the csv dialect (connectivity descriptors contain no quote
characters), and the ASCII fragment of str.strip / int().
-/

/-- Characters treated as whitespace by Python str.strip and int() (ASCII
fragment). -/
def pyWhitespace (c : Char) : Bool :=
  c = ' ' ∨ c = '\t' ∨ c = '\n' ∨ c = '\x0b' ∨ c = '\x0c' ∨ c = '\r'

/-- Python str.strip(): drop leading and trailing whitespace. -/
def pyStrip (s : List Char) : List Char :=
  ((s.dropWhile pyWhitespace).reverse.dropWhile pyWhitespace).reverse

/-- Numeric value of a list of decimal digit characters. -/
def digitsToNat (l : List Char) : Nat :=
  l.foldl (fun acc c => 10 * acc + (c.toNat - 48)) 0

/-- Whether the list contains two adjacent underscore characters. -/
def hasDoubleUnderscore (l : List Char) : Bool :=
  match l with
  | [] => false
  | _ :: t => (l.zip t).any (fun p => p.1 = '_' ∧ p.2 = '_')

/-- Whether a character sequence is a valid Python integer digit body:
nonempty, decimal digits with optional single underscores strictly between
digits. -/
def digitsOk (body : List Char) : Bool :=
  ¬ body.isEmpty ∧ body.all (fun c => c.isDigit ∨ c = '_') ∧
  (body.headD '0').isDigit ∧ (body.getLastD '0').isDigit ∧
  ¬ hasDoubleUnderscore body

/-- Python int(str) on ASCII input: surrounding whitespace stripped, optional
single sign, then a digit body; None models the ValueError raise. -/
def pyInt (s : List Char) : Option Int :=
  let t := pyStrip s
  match t with
  | [] => none
  | c :: rest =>
    let body := if c = '-' ∨ c = '+' then rest else t
    if digitsOk body then
      let n : Int := (digitsToNat (body.filter (fun ch => ch ≠ '_')) : Nat)
      some (if c = '-' then -n else n)
    else none

/-- Split a line at tab characters (csv.reader with delimiter='\t' on
quote-free input). -/
def splitTab : List Char → List (List Char)
  | [] => [[]]
  | c :: rest =>
    if c = '\t' then [] :: splitTab rest
    else
      match splitTab rest with
      | [] => [[c]]
      | f :: fs => (c :: f) :: fs

/-- skipinitialspace=True: csv.reader drops space characters immediately
following a delimiter, i.e. leading spaces of every field after the first. -/
def skipInitialSpace (fields : List (List Char)) : List (List Char) :=
  match fields with
  | [] => []
  | f :: rest => f :: rest.map (fun g => g.dropWhile (fun c => c = ' '))

/-- The row csv.reader yields for one line: an empty line yields the empty
row, otherwise the tab-split fields with initial spaces skipped. -/
def csvRow (line : List Char) : List (List Char) :=
  if line.isEmpty then [] else skipInitialSpace (splitTab line)

/-- Embedding of the per-row logic of
`GaudiRouting.parse_connectivity_file` (lines 64-92): skip empty rows and
rows whose first cell starts with a hash; drop empty cells; if at least four
cells remain, parse the first four as integers (a ValueError skips the row
with a warning); rows with fewer than four cells are skipped with a warning.
None models every skipped row; no row ever aborts the parse. -/
def parseRow (line : List Char) : Option Connection :=
  let row := csvRow line
  if row.isEmpty then none
  else if (row.headD []).headD ' ' = '#' then none
  else
    let row2 := row.filter (fun f => ¬ f.isEmpty)
    if 4 ≤ row2.length then
      match pyInt (row2.getD 0 []), pyInt (row2.getD 1 []),
            pyInt (row2.getD 2 []), pyInt (row2.getD 3 []) with
      | some a, some b, some c, some d => some ⟨⟨a, b⟩, ⟨c, d⟩⟩
      | _, _, _, _ => none
    else none

/-- Embedding of `GaudiRouting.parse_connectivity_file` applied to the lines
of a readable file: each row contributes at most one connection, in order. -/
def parse_connectivity_lines (lines : List (List Char)) : List Connection :=
  lines.filterMap parseRow

/-- Embedding of `GaudiRouting.parse_connectivity_file` including the
unreadable-file branch (lines 51-53): when `os.path.exists` fails the
function warns and returns the empty list; no exception propagates. -/
def parse_connectivity_file (file : Option (List (List Char))) :
    List Connection :=
  match file with
  | none => []
  | some lines => parse_connectivity_lines lines

/-
Device inventory view and port-health filter:
GaudiDeviceFactory.get_active_ports (lines 234-251) and the filtering loop of
RunConnection.make_connections (lines 63-130).
-/

/-- Per-port state stored in a GaudiDevice ports dict entry, as read by the
components under verification: the `is_active` flag consumed by
`get_active_ports` and the optional `gid` consumed by `make_connections`. -/
structure PortInfo where
  is_active : Bool
  gid : Option String
deriving DecidableEq, Repr

/-- A device as held by the GaudiDeviceFactory caches: bus id, optional
module id, InfiniBand name and the per-port state dict. -/
structure GaudiDevice where
  bus_id : String
  module_id : Option Int
  ib_name : String
  ports : List (Int × PortInfo)
deriving DecidableEq, Repr

/-- Lookup in a device ports dict (`port in device.ports` /
`device.ports[port]`). -/
def portsFind (ports : List (Int × PortInfo)) (p : Int) : Option PortInfo :=
  (ports.find? (fun q => q.1 = p)).map (fun q => q.2)

/-- Embedding of `GaudiDeviceFactory.get_active_ports` (lines 234-251): for
every device, the set of port numbers whose info has `is_active` true, keyed
by bus id (the set is modelled as the list of such port numbers; only
membership is consumed downstream). -/
def get_active_ports (devices : List GaudiDevice) :
    List (String × List Int) :=
  devices.map (fun d =>
    (d.bus_id, (d.ports.filter (fun q => q.2.is_active)).map (fun q => q.1)))

/-- Embedding of `GaudiDeviceFactory.get_device_by_bus_id`. -/
def get_device_by_bus_id (devices : List GaudiDevice) (bus : String) :
    Option GaudiDevice :=
  devices.find? (fun d => d.bus_id = bus)

/-- One endpoint of a connection record emitted by
`RunConnection.make_connections`. -/
structure RecordEndpoint where
  module_id : Int
  port : Int
  bus_id : String
  ib_name : String
  gid : Option String
deriving DecidableEq, Repr

/-- A connection record emitted by `RunConnection.make_connections`
(lines 99-114). -/
structure ConnectionRecord where
  source : RecordEndpoint
  destination : RecordEndpoint
deriving DecidableEq, Repr

/-- Embedding of one iteration of the `RunConnection.make_connections` loop
(lines 64-127) on a matched connection: devices are fetched by bus id (a
missing device skips the link with a bare `continue`); with verification on,
the link is skipped, again with a bare `continue` and no recorded reason,
unless both bus ids appear in the active-ports view and both endpoint ports
are members of their active sets; surviving links become records carrying the
per-port gids. -/
def connectionRecordOf (devices : List GaudiDevice) (verify : Bool)
    (m : MatchedConnection) : Option ConnectionRecord :=
  match get_device_by_bus_id devices m.source_device_id,
        get_device_by_bus_id devices m.dest_device_id with
  | some src_device, some dst_device =>
    let active_ports := get_active_ports devices
    let dropVerify : Bool :=
      verify &&
        (match dictFind active_ports m.source_device_id,
               dictFind active_ports m.dest_device_id with
         | some srcPorts, some dstPorts =>
             ¬ (srcPorts.contains m.source.port ∧
                dstPorts.contains m.destination.port)
         | _, _ => true)
    if dropVerify then none
    else
      let src_gid := (portsFind src_device.ports m.source.port).bind
        (fun info => info.gid)
      let dst_gid := (portsFind dst_device.ports m.destination.port).bind
        (fun info => info.gid)
      some ⟨⟨m.source.module_id, m.source.port, m.source_device_id,
             src_device.ib_name, src_gid⟩,
            ⟨m.destination.module_id, m.destination.port, m.dest_device_id,
             dst_device.ib_name, dst_gid⟩⟩
  | _, _ => none

/-- The filtering stage of `RunConnection.make_connections`: every matched
connection is processed independently; dropped links leave no trace in the
output. -/
def make_connections_from_matched (devices : List GaudiDevice)
    (matched : List MatchedConnection) (verify : Bool) :
    List ConnectionRecord :=
  matched.filterMap (connectionRecordOf devices verify)

/-- Embedding of `GaudiDeviceFactory.get_devices_by_module_id`
(lines 126-152): the dict from module id to device, built by iterating the
devices and keeping only those with a non-None module id (later devices
overwrite earlier ones with the same module id). -/
def devices_by_module (devices : List GaudiDevice) :
    List (Int × GaudiDevice) :=
  devices.foldl
    (fun acc d =>
      match d.module_id with
      | some m => dictUpsert acc m d
      | none => acc)
    []

/-- The `device_dicts` built by `RunConnection.make_connections`
(lines 51-58): bus id keyed records carrying the module id, fed to the
topology matcher. -/
def device_dicts (devices : List GaudiDevice) : List (String × Option Int) :=
  (devices_by_module devices).foldl
    (fun acc md => dictUpsert acc md.2.bus_id (some md.1)) []

/-- Embedding of `RunConnection.make_connections` (lines 29-130): match the
parsed connections against the device inventory, then filter by port
health. -/
def make_connections (devices : List GaudiDevice) (conns : List Connection)
    (verify : Bool) : List ConnectionRecord :=
  make_connections_from_matched devices
    (match_devices_to_connections conns (device_dicts devices)) verify

/-- Spec-side predicate, following the specification's words: both endpoint
ports of the matched link resolve to devices in the snapshot and report
`is_active == true`. -/
def spec_both_ports_active (devices : List GaudiDevice)
    (m : MatchedConnection) : Prop :=
  (∃ d s, get_device_by_bus_id devices m.source_device_id = some d ∧
      portsFind d.ports m.source.port = some s ∧ s.is_active = true) ∧
  (∃ d s, get_device_by_bus_id devices m.dest_device_id = some d ∧
      portsFind d.ports m.destination.port = some s ∧ s.is_active = true)

/-- Spec-side drop record, following the specification's words: every link
dropped by the Port Health Filter must carry a reason distinguishing source
port inactive from destination port inactive (or both). -/
inductive DropReason where
  | source_port_inactive
  | destination_port_inactive
  | both_ports_inactive
deriving DecidableEq, Repr

/-- Spec-side list of required drop records for a batch, following the
specification's words (one record per dropped link, naming the inactive
side). Links whose endpoints do not resolve are out of this filter's scope
and yield no inactive-port record here. -/
def spec_drop_reasons (devices : List GaudiDevice)
    (matched : List MatchedConnection) : List DropReason :=
  matched.filterMap (fun m =>
    match get_device_by_bus_id devices m.source_device_id,
          get_device_by_bus_id devices m.dest_device_id with
    | some sd, some dd =>
      match (portsFind sd.ports m.source.port).map PortInfo.is_active,
            (portsFind dd.ports m.destination.port).map PortInfo.is_active with
      | some true, some true => none
      | some true, _ => some DropReason.destination_port_inactive
      | _, some true => some DropReason.source_port_inactive
      | _, _ => some DropReason.both_ports_inactive
    | _, _ => none)

/-
Result classification: AsyncPerfRunner._analyze_output (lines 432-483) and
the post-classification override in AsyncPerfRunner._run_single_test
(lines 328-342). Output streams are modelled as lists of lines
(splitlines), each line a List Char.
-/

/-- Whether `p` occurs as a contiguous substring of `l` (Python `p in s` on
strings). -/
def isSubstr : List Char → List Char → Bool
  | p, [] => p.isEmpty
  | p, c :: rest => p.isPrefixOf (c :: rest) || isSubstr p rest

/-- Python str.lower on the ASCII fragment. -/
def toLowerL (s : List Char) : List Char := s.map Char.toLower

/-- The failure markers scanned for by `_analyze_output` (line 448). -/
def errorMarkers : List (List Char) :=
  [("error").toList, ("failed").toList, ("cannot").toList,
   ("unable").toList]

/-- The throughput and latency markers that set `success_found` in
`_analyze_output` (lines 452 and 468). -/
def metricMarkers : List (List Char) :=
  [("bandwidth").toList, ("bw").toList, ("latency").toList]

/-- The exact line `_analyze_output` and `_run_single_test` test for with
list membership (lines 337 and 480). -/
def testPassLine : List Char := ("Test PASS").toList

/-- Whether a line contains one of the failure markers, lowercased first
(line 448 of `_analyze_output`). -/
def hasErrMarker (line : List Char) : Bool :=
  errorMarkers.any (fun m => isSubstr m (toLowerL line))

/-- Whether a line contains one of the metric markers, lowercased first
(lines 452 and 468 of `_analyze_output`). -/
def hasMetricMarker (line : List Char) : Bool :=
  metricMarkers.any (fun m => isSubstr m (toLowerL line))

/-- The statuses a PerfTestResult can carry. -/
inductive TestStatus where
  | success
  | failed
  | timeout
  | error
deriving DecidableEq, Repr

/-- The line loop of `_analyze_output` (lines 444-477): returns none when a
failure marker causes the early `return 'failed'`, otherwise the final value
of `success_found` (metric extraction stores values into the metrics dict
but never changes the control flow, so only the marker test is relevant to
the status). -/
def scanLines : List (List Char) → Bool → Option Bool
  | [], sf => some sf
  | l :: rest, sf =>
    if hasErrMarker l then none
    else scanLines rest (sf || hasMetricMarker l)

/-- Embedding of the status computed by `AsyncPerfRunner._analyze_output`
(lines 432-483): non-zero client return code fails; then the line loop; then
the exact-line `Test PASS` membership test on both streams; then
`success_found`. -/
def analyze_output (client_output server_output : List (List Char))
    (client_returncode : Int) : TestStatus :=
  if client_returncode ≠ 0 then TestStatus.failed
  else
    match scanLines (client_output ++ server_output) false with
    | none => TestStatus.failed
    | some success_found =>
      if client_output.contains testPassLine &&
         server_output.contains testPassLine then TestStatus.success
      else if success_found then TestStatus.success
      else TestStatus.failed

/-- Embedding of the effective non-timeout status assigned by
`AsyncPerfRunner._run_single_test` (lines 329-338): the `_analyze_output`
status, overridden to success when it is failed but both output streams
contain the exact line `Test PASS`. -/
def run_single_status (client_output server_output : List (List Char))
    (rc : Int) : TestStatus :=
  let st := analyze_output client_output server_output rc
  if st = TestStatus.failed ∧ client_output.contains testPassLine ∧
      server_output.contains testPassLine
  then TestStatus.success else st

/-- Spec-side classifier, following the claim's words: rules applied in
order, (1) non-zero client exit code fails, (2) a failure marker in either
stream fails, (3) the success marker in both streams succeeds, (4) a
throughput or latency marker with no error marker succeeds, (5) otherwise
failed. -/
def spec_rule_status (rc : Int) (client server : List (List Char)) :
    TestStatus :=
  if rc ≠ 0 then TestStatus.failed
  else if (client ++ server).any hasErrMarker then TestStatus.failed
  else if client.contains testPassLine ∧ server.contains testPassLine then
    TestStatus.success
  else if (client ++ server).any hasMetricMarker then TestStatus.success
  else TestStatus.failed

/-
Aggregation: run_connection_tests_async (AsyncPerfRunner.py lines 518-596)
and RealRunConnection (main_gc.py lines 35-150).
-/

/-- The summary dict built by `run_connection_tests_async`
(lines 585-596). -/
structure AsyncSummary where
  total : Nat
  submitted : Nat
  completed : Nat
  success : Nat
  failed : Nat
  timeout : Nat
  error : Nat
deriving DecidableEq, Repr

/-- Count of results with a given status. -/
def countStatus (results : List TestStatus) (s : TestStatus) : Nat :=
  results.countP (fun r => r = s)

/-- Embedding of the aggregation in `run_connection_tests_async`
(lines 541-596): one request is submitted per connection; `fetched` holds
the per-request outcome of `runner.get_result` (none models the 600 second
wait expiring with no result); the collected results are the non-none
fetches, and the summary counts them by status. -/
def async_run_summary (nconnections : Nat)
    (fetched : List (Option TestStatus)) : AsyncSummary :=
  let results := fetched.filterMap id
  { total := nconnections
    submitted := fetched.length
    completed := results.length
    success := countStatus results TestStatus.success
    failed := countStatus results TestStatus.failed
    timeout := countStatus results TestStatus.timeout
    error := countStatus results TestStatus.error }

/-- The mutually exclusive per-connection outcomes of one iteration of the
`RealRunConnection` loop (main_gc.py lines 52-132): missing endpoint device,
missing perf_test binary, a completed `perf_runner.run()` returning a
boolean, or an exception. -/
inductive ConnEvent where
  | missing_endpoint
  | perf_test_missing
  | ran (test_success : Bool)
  | raised
deriving DecidableEq, Repr

/-- The summary dict built by `RealRunConnection` (lines 142-150). -/
structure RealSummary where
  total : Nat
  success : Nat
  failure : Nat
  error : Nat
deriving DecidableEq, Repr

/-- One iteration of the `RealRunConnection` loop (main_gc.py
lines 52-132) acting on the (success_count, failure_count, error_count)
accumulator: every branch increments exactly one counter. -/
def realStep (acc : Nat × Nat × Nat) (e : ConnEvent) : Nat × Nat × Nat :=
  match e with
  | ConnEvent.missing_endpoint => (acc.1, acc.2.1, acc.2.2 + 1)
  | ConnEvent.perf_test_missing => (acc.1, acc.2.1, acc.2.2 + 1)
  | ConnEvent.ran true => (acc.1 + 1, acc.2.1, acc.2.2)
  | ConnEvent.ran false => (acc.1, acc.2.1 + 1, acc.2.2)
  | ConnEvent.raised => (acc.1, acc.2.1, acc.2.2 + 1)

/-- The counters accumulated over a whole `RealRunConnection` run. -/
def RealRunConnection_counts (events : List ConnEvent) : Nat × Nat × Nat :=
  events.foldl realStep (0, 0, 0)

/-- Embedding of the summary built by `RealRunConnection` (main_gc.py
lines 142-150): the three counters with `total = len(connections)`. -/
def RealRunConnection_summary (events : List ConnEvent) : RealSummary :=
  { total := events.length
    success := (RealRunConnection_counts events).1
    failure := (RealRunConnection_counts events).2.1
    error := (RealRunConnection_counts events).2.2 }

/-
Pipeline composition for the fatal-input claim: descriptor parsing feeds the
topology matcher, whose output feeds the port-health filter; one test
request is submitted per surviving record (run_connection_tests_async
lines 541-556 submits exactly one request per connection tuple).
-/

/-- The test requests queued by a run: one per connection record surviving
parsing, matching and port-health filtering. -/
def queued_test_requests (file : Option (List (List Char)))
    (devices : List GaudiDevice) : List ConnectionRecord :=
  make_connections devices (parse_connectivity_file file) true

/-- Embedding of the run outcome on the fatal-input paths. The sources
raise nothing here: `parse_connectivity_file` warns and returns the empty
list when the file does not exist (GaudiRouting.py lines 51-53) and catches
every read error (lines 93-94); matching and filtering are pure lookups;
and `run_connection_tests_async` submits one request per surviving record,
collects the fetched results and returns its summary dict normally
(lines 541-596). Except models an exception escaping the run: no branch of
this path raises, so the run always returns ok with the summary it built
over the queued requests. -/
def run_connection_tests (file : Option (List (List Char)))
    (devices : List GaudiDevice) (fetched : List (Option TestStatus)) :
    Except String AsyncSummary :=
  Except.ok
    (async_run_summary (queued_test_requests file devices).length fetched)

/-- Spec-side run outcome, following the specification's words: a
FatalInputError — descriptor file unreadable or Device Inventory returning
no devices at all — aborts the entire run before any requests are queued;
otherwise the run proceeds to its summary. -/
def spec_fatal_input_outcome (file : Option (List (List Char)))
    (devices : List GaudiDevice) (summary : AsyncSummary) :
    Except String AsyncSummary :=
  if file = none ∨ devices = [] then Except.error ("FatalInputError")
  else Except.ok summary

/-
Benchmark command construction: PerfRunner.__init__ (lines 31-86),
PerfRunner.build_command_args (lines 88-127) and
AsyncPerfRunner._build_command (lines 379-411).
-/

/-- The parameters accepted by `PerfRunner.__init__` (lines 31-35),
including the requested GID indexes. -/
structure PerfRunnerArgs where
  server_host : String
  port : Int
  test_type : String
  size : Int
  iterations : Int
  timeout : Int
  server_ib_dev : Option String
  server_ib_port : Int
  server_gid_idx : Option Int
  client_ib_dev : Option String
  client_ib_port : Int
  client_gid_idx : Option Int
  extra_args : List String
deriving DecidableEq, Repr

/-- The PerfRunner attributes read by `build_command_args`, as set by
`__init__`. -/
structure PerfRunnerState where
  server_host : String
  port : Int
  test_type : String
  size : Int
  iterations : Int
  server_ib_dev : Option String
  server_ib_port : Int
  server_gid_idx : Int
  client_ib_dev : Option String
  client_ib_port : Int
  client_gid_idx : Int
  extra_args : List String
  perf_test_path : String
deriving DecidableEq, Repr

/-- Embedding of `PerfRunner.__init__` (lines 31-86): every parameter is
stored as given except the GID indexes, which are assigned the literal 0
(lines 66 and 72) with the incoming `server_gid_idx` and `client_gid_idx`
never read. -/
def PerfRunner_init (a : PerfRunnerArgs) : PerfRunnerState :=
  { server_host := a.server_host
    port := a.port
    test_type := a.test_type
    size := a.size
    iterations := a.iterations
    server_ib_dev := a.server_ib_dev
    server_ib_port := a.server_ib_port
    server_gid_idx := 0
    client_ib_dev := a.client_ib_dev
    client_ib_port := a.client_ib_port
    client_gid_idx := 0
    extra_args := a.extra_args
    perf_test_path := ("/opt/habanalabs/perf-test/perf_test") }

/-- Python truthiness of an integer. -/
def truthyInt (n : Int) : Bool := n ≠ 0

/-- Python truthiness of an optional string. -/
def truthyOptStr (s : Option String) : Bool :=
  match s with
  | none => false
  | some t => ¬ t.isEmpty

/-- Embedding of `PerfRunner.build_command_args` (lines 88-127): the
perf_test path, the truthiness-guarded common flags, the side-specific
device and port flags, the hard-coded `-g 0` pair (lines 109 and 117), the
extra arguments, and for the client the server host. -/
def build_command_args (st : PerfRunnerState) (is_server : Bool) :
    List String :=
  [st.perf_test_path] ++
  (if truthyInt st.port then [("-p"), toString st.port] else []) ++
  (if ¬ st.test_type.isEmpty then [("-t"), st.test_type] else []) ++
  (if truthyInt st.size then [("-s"), toString st.size] else []) ++
  (if truthyInt st.iterations then [("-n"), toString st.iterations]
   else []) ++
  (if is_server then
    (if truthyOptStr st.server_ib_dev then
      [("-d"), st.server_ib_dev.getD ("")] else []) ++
    (if truthyInt st.server_ib_port then
      [("-i"), toString st.server_ib_port] else []) ++
    [("-g"), ("0")]
  else
    (if truthyOptStr st.client_ib_dev then
      [("-d"), st.client_ib_dev.getD ("")] else []) ++
    (if truthyInt st.client_ib_port then
      [("-i"), toString st.client_ib_port] else []) ++
    [("-g"), ("0")]) ++
  st.extra_args ++
  (if ¬ is_server ∧ ¬ st.server_host.isEmpty then [st.server_host] else [])

/-- A PerfTestRequest as consumed by `AsyncPerfRunner._build_command`: the
per-side device InfiniBand names and ports plus the test parameters. -/
structure AsyncRequest where
  request_id : String
  source_ib_name : Option String
  source_port : Int
  dest_ib_name : Option String
  dest_port : Int
  test_type : String
  size : Int
  iterations : Int
deriving DecidableEq, Repr

/-- Embedding of `AsyncPerfRunner._build_command` (lines 379-411): common
flags, side-specific device name (when present and truthy) and port, the
hard-coded `-g 0` pair (lines 396 and 406), and the loopback server address
appended for the client. -/
def async_build_command (perf_test_path : String) (req : AsyncRequest)
    (is_server : Bool) : List String :=
  [perf_test_path, ("-t"), req.test_type, ("-s"), toString req.size,
   ("-n"), toString req.iterations] ++
  (if is_server then
    (if truthyOptStr req.source_ib_name then
      [("-d"), req.source_ib_name.getD ("")] else []) ++
    [("-i"), toString req.source_port] ++ [("-g"), ("0")]
  else
    (if truthyOptStr req.dest_ib_name then
      [("-d"), req.dest_ib_name.getD ("")] else []) ++
    [("-i"), toString req.dest_port] ++ [("-g"), ("0")] ++
    [("127.0.0.1")])

/-
Worker pool concurrency model: AsyncPerfRunner.__init__ (lines 69-97),
AsyncPerfRunner.start (lines 99-120) and AsyncPerfRunner._worker
(lines 173-218). start creates exactly max_concurrent_tests worker tasks;
each worker dequeues one request, records it in active_tests, awaits the
executor future running _run_single_test (which is what spawns the
process pair), removes it from active_tests, and only then loops. A worker
therefore has at most one request in flight, and every active process pair
belongs to the in-flight request of some worker.
-/

/-- A state of the worker pool: the pending queue of request ids, one slot
per worker task (some r while the worker has request r in flight) and the
keys of the active_tests dict. -/
structure PoolState where
  pending : List String
  workers : List (Option String)
  active : List String
deriving DecidableEq, Repr

/-- The two state changes a worker performs per iteration of its loop:
picking up the next pending request (lines 180-196: dequeue, start the
executor future, record it in active_tests) and finishing it
(lines 199-205: await the future, store the result, delete the
active_tests entry). -/
inductive PoolStep : PoolState → PoolState → Prop where
  | dequeue (s : PoolState) (i : Nat) (r : String) (rest : List String) :
      i < s.workers.length →
      s.workers.getD i none = none →
      s.pending = r :: rest →
      PoolStep s ⟨rest, s.workers.set i (some r), s.active ++ [r]⟩
  | complete (s : PoolState) (i : Nat) (r : String) :
      s.workers.getD i none = some r →
      PoolStep s ⟨s.pending, s.workers.set i none, s.active.erase r⟩

/-- The pool state right after `AsyncPerfRunner.start` created its
`max_concurrent_tests` workers: all idle, nothing active. -/
def initPool (n : Nat) (pending : List String) : PoolState :=
  ⟨pending, List.replicate n none, []⟩

/-- States the pool can reach from the initial state by worker steps. -/
def PoolReachable (n : Nat) (pending : List String) (s : PoolState) : Prop :=
  Relation.ReflTransGen PoolStep (initPool n pending) s

/-
Priority queue: AsyncPerfRunner.submit_test (line 145) puts the tuple
(request.priority, request) into an asyncio.PriorityQueue, and each worker
retrieves with get (line 180). asyncio.PriorityQueue stores its entries in a
list manipulated with heapq.heappush and heapq.heappop, so the served order
is exactly the CPython heapq order, embedded below. The relevant comparison
is the one the heap applies to the stored tuples: (p1, r1) < (p2, r2) first
compares the priorities; on equal priorities it falls through to
PerfTestRequest.__lt__ (lines 43-45), which again compares the priority
fields and is therefore false both ways. Hence tuple-less-than holds exactly
when the first priority is strictly smaller, which is how entries are
compared below. An entry carries its priority and its submission index (the
requests themselves are distinct dataclass instances, so tuple comparison
never falls through to field equality of equal requests).
-/

/-- A queue entry standing for the tuple (priority, request): the priority
and the submission index identifying the request. -/
structure QEntry where
  priority : Nat
  seq : Nat
deriving DecidableEq, Repr

instance : Inhabited QEntry := ⟨⟨0, 0⟩⟩

/-- Index of the parent of heap slot i. -/
def parentIdx (i : Nat) : Nat := (i - 1) / 2

/-- Embedding of heapq._siftdown: bubble newitem from pos toward startpos,
moving larger parents down. The fuel argument only bounds the loop; pos
strictly decreases each iteration, so fuel pos+1 always suffices and the
zero-fuel branch is never reached from `siftdown`. -/
def siftdownF : Nat → List QEntry → Nat → Nat → QEntry → List QEntry
  | 0, heap, _, pos, newitem => heap.set pos newitem
  | fuel + 1, heap, startpos, pos, newitem =>
    if startpos < pos then
      let parentpos := parentIdx pos
      let parent := heap.getD parentpos default
      if newitem.priority < parent.priority then
        siftdownF fuel (heap.set pos parent) startpos parentpos newitem
      else heap.set pos newitem
    else heap.set pos newitem

/-- heapq._siftdown with adequate fuel. -/
def siftdown (heap : List QEntry) (startpos pos : Nat) (newitem : QEntry) :
    List QEntry :=
  siftdownF (pos + 1) heap startpos pos newitem

/-- Embedding of the loop of heapq._siftup: starting from the hole at pos,
repeatedly move the smaller child up until the hole reaches a leaf;
returns the heap and the final hole position. The fuel argument only bounds
the loop; the hole index strictly increases and stays below the length, so
fuel length+1 always suffices. -/
def siftupLoopF : Nat → List QEntry → Nat → List QEntry × Nat
  | 0, heap, pos => (heap, pos)
  | fuel + 1, heap, pos =>
    let endpos := heap.length
    let childpos := 2 * pos + 1
    if childpos < endpos then
      let rightpos := childpos + 1
      let c :=
        if rightpos < endpos ∧
            ¬ (heap.getD childpos default).priority <
              (heap.getD rightpos default).priority
        then rightpos else childpos
      siftupLoopF fuel (heap.set pos (heap.getD c default)) c
    else (heap, pos)

/-- Embedding of heapq._siftup (with startpos = pos as in the source): run
the move-child-up loop, place newitem in the final hole, then bubble it up
with _siftdown. -/
def siftup (heap : List QEntry) (pos : Nat) (newitem : QEntry) :
    List QEntry :=
  let r := siftupLoopF (heap.length + 1) heap pos
  siftdown (r.1.set r.2 newitem) pos r.2 newitem

/-- Embedding of heapq.heappush: append the item and sift it down toward the
root from the last position. -/
def heappush (heap : List QEntry) (item : QEntry) : List QEntry :=
  siftdown (heap ++ [item]) 0 heap.length item

/-- Embedding of heapq.heappop: pop the last element; if the heap is still
nonempty, remember the root as the return value, move the last element to
the root and sift up. None models the IndexError on an empty heap (asyncio
workers only get from a nonempty queue). -/
def heappop (heap : List QEntry) : Option (QEntry × List QEntry) :=
  match heap with
  | [] => none
  | _ :: _ =>
    let lastelt := heap.getLastD default
    let rest := heap.dropLast
    match rest with
    | [] => some (lastelt, [])
    | _ :: _ => some (rest.getD 0 default, siftup (rest.set 0 lastelt) 0 lastelt)

/-- Submitting a batch of requests in order: repeated
`submit_test` / heappush starting from the empty queue. -/
def pushAll (items : List QEntry) : List QEntry :=
  items.foldl heappush []

/-- Serving requests until the queue is empty: repeated worker get /
heappop. The fuel argument only bounds the loop; each pop removes one
element, so fuel length suffices. -/
def drainF : Nat → List QEntry → List QEntry
  | 0, _ => []
  | fuel + 1, heap =>
    match heappop heap with
    | none => []
    | some (e, rest) => e :: drainF fuel rest

/-- Serving every queued request in heap order. -/
def drain (heap : List QEntry) : List QEntry :=
  drainF heap.length heap

/-- The priority stored at heap slot i (out-of-range reads never occur under
the stated preconditions). -/
def keyAt (l : List QEntry) (i : Nat) : Nat := (l.getD i default).priority

/-- The CPython heap invariant: every slot is at least its parent. -/
def IsHeap (l : List QEntry) : Prop :=
  ∀ i, 0 < i → i < l.length → keyAt l (parentIdx i) ≤ keyAt l i

end GaudiConn

namespace GaudiConn

/-
Supporting lemmas for the topology matcher.
-/

lemma length_filterMap_eq_countP {α β : Type} (f : α → Option β)
    (p : α → Bool) (h : ∀ a, (f a).isSome = p a) (l : List α) :
    (l.filterMap f).length = l.countP p := by
  induction l with
  | nil => simp
  | cons a t ih =>
    cases hfa : f a with
    | none =>
      have hpa : p a = false := by rw [← h a, hfa]; rfl
      simp [List.filterMap_cons, hfa, List.countP_cons, hpa, ih]
    | some b =>
      have hpa : p a = true := by rw [← h a, hfa]; rfl
      simp [List.filterMap_cons, hfa, List.countP_cons, hpa, ih]

lemma match_eq_filterMap (connections : List Connection)
    (devices : List (String × Option Int)) :
    match_devices_to_connections connections devices
      = connections.filterMap (matchConn devices) := by
  unfold match_devices_to_connections
  cases connections <;> simp

lemma matchConn_some (devices : List (String × Option Int))
    (c : Connection) (m : MatchedConnection)
    (h : matchConn devices c = some m) :
    m.source = c.source ∧ m.destination = c.destination ∧
    c.source.module_id ≠ c.destination.module_id ∧
    dictFind (module_to_bus_id devices) c.source.module_id
      = some m.source_device_id ∧
    dictFind (module_to_bus_id devices) c.destination.module_id
      = some m.dest_device_id := by
  unfold matchConn at h
  by_cases hsd : c.source.module_id = c.destination.module_id
  · simp [hsd] at h
  · cases h1 : dictFind (module_to_bus_id devices) c.source.module_id with
    | none => simp [hsd, h1] at h
    | some sb =>
      cases h2 : dictFind (module_to_bus_id devices)
          c.destination.module_id with
      | none => simp [hsd, h1, h2] at h
      | some db =>
        simp only [hsd, if_neg, h1, h2] at h
        cases h
        exact ⟨rfl, rfl, hsd, rfl, rfl⟩

lemma matchConn_isSome (devices : List (String × Option Int))
    (c : Connection) :
    (matchConn devices c).isSome =
      (decide (c.source.module_id ≠ c.destination.module_id) &&
       (dictFind (module_to_bus_id devices) c.source.module_id).isSome &&
       (dictFind (module_to_bus_id devices)
          c.destination.module_id).isSome) := by
  unfold matchConn
  by_cases hsd : c.source.module_id = c.destination.module_id
  · simp [hsd]
  · cases h1 : dictFind (module_to_bus_id devices) c.source.module_id <;>
      cases h2 : dictFind (module_to_bus_id devices)
        c.destination.module_id <;>
      simp [hsd, h1, h2]

lemma matchConn_self_none (devices : List (String × Option Int))
    (c : Connection)
    (h : c.source.module_id = c.destination.module_id) :
    matchConn devices c = none := by
  unfold matchConn
  simp [h]

lemma filterMap_filter_of_none {α β : Type} (f : α → Option β)
    (p : α → Bool) (h : ∀ a, p a = false → f a = none) (l : List α) :
    (l.filter p).filterMap f = l.filterMap f := by
  induction l with
  | nil => simp
  | cons a t ih =>
    cases hpa : p a with
    | true => simp [List.filter_cons, hpa, List.filterMap_cons, ih]
    | false =>
      simp [List.filter_cons, hpa, List.filterMap_cons, h a hpa, ih]

end GaudiConn

namespace GaudiConn

/-
Supporting lemmas for the descriptor parser.
-/

lemma splitTab_ne_nil (l : List Char) : splitTab l ≠ [] := by
  cases l with
  | nil => simp [splitTab]
  | cons c rest =>
    unfold splitTab
    by_cases hc : c = '\t'
    · simp [hc]
    · simp only [hc, if_neg]
      cases splitTab rest <;> simp

lemma parseRow_comment_none (line : List Char)
    (h : line.headD ' ' = '#') : parseRow line = none := by
  cases line with
  | nil => exact absurd h (by decide)
  | cons c rest =>
    have hc : c = '#' := by simpa using h
    subst hc
    unfold parseRow csvRow
    cases hsp : splitTab rest with
    | nil => exact absurd hsp (splitTab_ne_nil rest)
    | cons f fs =>
      simp [splitTab, hsp, skipInitialSpace]

lemma parse_skip (pre post : List (List Char)) (line : List Char)
    (h : parseRow line = none) :
    parse_connectivity_lines (pre ++ line :: post)
      = parse_connectivity_lines (pre ++ post) := by
  unfold parse_connectivity_lines
  simp [List.filterMap_append, List.filterMap_cons, h]

/-- Claim C1 (amended). For every input list of logical links and every
device snapshot, the Topology Matcher excludes from its output every link
whose source module id equals its destination module id, but it increments
no same-module skip count: the self-loop links are silently discarded (the
output is identical to the output for the input with the self-loop links
removed), and the output consists of exactly the non-self-loop links whose
two endpoints both resolve. -/
theorem C1_theorem (connections : List Connection)
    (devices : List (String × Option Int)) :
    (∀ m ∈ match_devices_to_connections connections devices,
      m.source.module_id ≠ m.destination.module_id) ∧
    match_devices_to_connections connections devices
      = match_devices_to_connections
          (connections.filter
            (fun c => c.source.module_id ≠ c.destination.module_id))
          devices ∧
    (match_devices_to_connections connections devices).length
      = connections.countP
          (fun c =>
            decide (c.source.module_id ≠ c.destination.module_id) &&
            (dictFind (module_to_bus_id devices)
               c.source.module_id).isSome &&
            (dictFind (module_to_bus_id devices)
               c.destination.module_id).isSome) := by
  refine ⟨?_, ?_, ?_⟩
  · intro m hm
    rw [match_eq_filterMap, List.mem_filterMap] at hm
    obtain ⟨c, _, hfc⟩ := hm
    obtain ⟨hs, hd, hne, _, _⟩ := matchConn_some devices c m hfc
    rw [hs, hd]; exact hne
  · rw [match_eq_filterMap, match_eq_filterMap]
    symm
    apply filterMap_filter_of_none
    intro c hc
    apply matchConn_self_none
    simpa using hc
  · rw [match_eq_filterMap]
    exact length_filterMap_eq_countP _ _ (matchConn_isSome devices)
      connections

/-- Witness for C1: the theorem applied to a concrete run with one matched
link. -/
theorem C1_witness :
    (⟨⟨0,1⟩,⟨1,1⟩,("b0"),("b1")⟩ : MatchedConnection).source.module_id
      ≠ (⟨⟨0,1⟩,⟨1,1⟩,("b0"),("b1")⟩ :
          MatchedConnection).destination.module_id :=
  (C1_theorem [⟨⟨0,1⟩,⟨1,1⟩⟩] [(("b0"), some 0), (("b1"), some 1)]).1
    ⟨⟨0,1⟩,⟨1,1⟩,("b0"),("b1")⟩ (by decide)

/-- Claim C1 fails as stated: the matcher maintains no same-module skip
count. Its entire result is the matched list, and two runs whose inputs
require different same-module skip counts (here 1 and 0, per the
specification's own counting) produce identical results, so nothing in the
output is incremented by the number of self-loop links. -/
theorem C1_counterexample :
    match_devices_to_connections
        [⟨⟨0,1⟩,⟨1,1⟩⟩, ⟨⟨1,2⟩,⟨1,3⟩⟩]
        [(("b0"), some 0), (("b1"), some 1)]
      = match_devices_to_connections
        [⟨⟨0,1⟩,⟨1,1⟩⟩]
        [(("b0"), some 0), (("b1"), some 1)] ∧
    spec_same_module_skips [⟨⟨0,1⟩,⟨1,1⟩⟩, ⟨⟨1,2⟩,⟨1,3⟩⟩] = 1 ∧
    spec_same_module_skips [⟨⟨0,1⟩,⟨1,1⟩⟩] = 0 := by decide

/-- Claim C3 (amended). Every link emitted by the Topology Matcher has both
module ids resolved in the snapshot, so a link with an unresolved side is
always dropped; but the drop is silent: the matcher returns only the matched
list, with no count and no record naming the unresolved side or module id.
In particular the descriptor line 0 1 5 1 against an inventory holding
modules 0 and 1 yields 0 validated links. -/
theorem C3_theorem (connections : List Connection)
    (devices : List (String × Option Int)) :
    (∀ m ∈ match_devices_to_connections connections devices,
      dictFind (module_to_bus_id devices) m.source.module_id
          = some m.source_device_id ∧
      dictFind (module_to_bus_id devices) m.destination.module_id
          = some m.dest_device_id) ∧
    match_devices_to_connections [⟨⟨0,1⟩,⟨5,1⟩⟩]
        [(("b0"), some 0), (("b1"), some 1)] = [] := by
  constructor
  · intro m hm
    rw [match_eq_filterMap, List.mem_filterMap] at hm
    obtain ⟨c, _, hfc⟩ := hm
    obtain ⟨hs, hd, _, h1, h2⟩ := matchConn_some devices c m hfc
    rw [hs, hd]
    exact ⟨h1, h2⟩
  · decide

/-- Witness for C3: the theorem applied to a concrete matched link. -/
theorem C3_witness :
    dictFind (module_to_bus_id [(("b0"), some 0), (("b1"), some 1)])
        (⟨⟨0,1⟩,⟨1,1⟩,("b0"),("b1")⟩ : MatchedConnection).source.module_id
      = some (⟨⟨0,1⟩,⟨1,1⟩,("b0"),("b1")⟩ :
          MatchedConnection).source_device_id ∧
    dictFind (module_to_bus_id [(("b0"), some 0), (("b1"), some 1)])
        (⟨⟨0,1⟩,⟨1,1⟩,("b0"),("b1")⟩ :
          MatchedConnection).destination.module_id
      = some (⟨⟨0,1⟩,⟨1,1⟩,("b0"),("b1")⟩ :
          MatchedConnection).dest_device_id :=
  (C3_theorem [⟨⟨0,1⟩,⟨1,1⟩⟩] [(("b0"), some 0), (("b1"), some 1)]).1
    ⟨⟨0,1⟩,⟨1,1⟩,("b0"),("b1")⟩ (by decide)

/-- Claim C3 fails as stated: a link with an unresolved destination module
is dropped but not recorded. The run on the descriptor line 0 1 5 1 (module
5 absent) produces output identical to the run on an empty descriptor,
although the specification requires the two runs to differ by a
skipped-missing-device record counting 1 and naming the destination side;
no component of the matcher's output can therefore carry that record. -/
theorem C3_counterexample :
    match_devices_to_connections [⟨⟨0,1⟩,⟨5,1⟩⟩]
        [(("b0"), some 0), (("b1"), some 1)]
      = match_devices_to_connections ([] : List Connection)
        [(("b0"), some 0), (("b1"), some 1)] ∧
    spec_missing_device_skips [(("b0"), some 0), (("b1"), some 1)]
        [⟨⟨0,1⟩,⟨5,1⟩⟩] = 1 ∧
    spec_missing_device_skips [(("b0"), some 0), (("b1"), some 1)]
        ([] : List Connection) = 0 := by decide

/-- Claim C4 (amended). The connectivity descriptor parser accepts lines of
four integer columns separated by tabs (the file is read with csv.reader
and delimiter tab); it ignores empty lines and lines beginning with a hash,
and skips lines that do not yield four parseable integer fields with a
warning, never failing the whole parse; the tab-separated forms of the two
example lines parse into two connections. Space-separated fields are not
split and such lines are skipped. -/
theorem C4_theorem (pre post : List (List Char)) (line : List Char) :
    parse_connectivity_lines
        [("0\t1\t1\t1").toList, ("1\t2\t0\t1").toList]
      = [⟨⟨0,1⟩,⟨1,1⟩⟩, ⟨⟨1,2⟩,⟨0,1⟩⟩] ∧
    (line = [] ∨ line.headD ' ' = '#' →
      parse_connectivity_lines (pre ++ line :: post)
        = parse_connectivity_lines (pre ++ post)) ∧
    (parseRow line = none →
      parse_connectivity_lines (pre ++ line :: post)
        = parse_connectivity_lines (pre ++ post)) := by
  refine ⟨by decide, ?_, fun h => parse_skip pre post line h⟩
  intro h
  rcases h with rfl | h
  · exact parse_skip pre post [] (by decide)
  · exact parse_skip pre post line (parseRow_comment_none line h)

/-- Witness for C4: the theorem applied to a concrete descriptor with a
skipped line between two valid ones. -/
theorem C4_witness :
    parse_connectivity_lines
        [("0\t1\t1\t1").toList, ("0 1 1 1").toList, ("1\t2\t0\t1").toList]
      = parse_connectivity_lines
        [("0\t1\t1\t1").toList, ("1\t2\t0\t1").toList] :=
  (C4_theorem [("0\t1\t1\t1").toList] [("1\t2\t0\t1").toList]
    (("0 1 1 1").toList)).2.2 (by decide)

/-- Claim C4 fails as stated for whitespace-separated fields: the parser
splits rows at tabs only, so the space-separated lines 0 1 1 1 and 1 2 0 1
each form a single cell, are reported as insufficient data and are skipped,
parsing into zero connections rather than two. -/
theorem C4_counterexample :
    (parse_connectivity_lines
        [("0 1 1 1").toList, ("1 2 0 1").toList]).length = 0 := by decide

end GaudiConn

namespace GaudiConn

/-
Supporting lemmas for aggregation, pipeline and pool claims.
-/

lemma length_filterMap_id_of_all_isSome {α : Type}
    (l : List (Option α)) (h : ∀ o ∈ l, o.isSome) :
    (l.filterMap id).length = l.length := by
  induction l with
  | nil => simp
  | cons o t ih =>
    cases o with
    | none => exact absurd (h none (List.mem_cons_self _ _)) (by simp)
    | some a =>
      simp only [List.filterMap_cons, id, List.length_cons]
      rw [ih (fun o ho => h o (List.mem_cons_of_mem _ ho))]

lemma countStatus_partition (results : List TestStatus) :
    countStatus results TestStatus.success +
    countStatus results TestStatus.failed +
    countStatus results TestStatus.timeout +
    countStatus results TestStatus.error = results.length := by
  induction results with
  | nil => simp [countStatus]
  | cons r t ih =>
    cases r <;>
      simp only [countStatus, List.countP_cons, List.length_cons] at * <;>
      simp <;> omega

lemma real_counts_add (events : List ConnEvent) :
    ∀ acc : Nat × Nat × Nat,
      (events.foldl realStep acc).1 + (events.foldl realStep acc).2.1 +
        (events.foldl realStep acc).2.2
      = acc.1 + acc.2.1 + acc.2.2 + events.length := by
  induction events with
  | nil => intro acc; simp
  | cons e t ih =>
    intro acc
    cases e with
    | missing_endpoint =>
      simp only [List.foldl_cons, realStep]; rw [ih]; simp; omega
    | perf_test_missing =>
      simp only [List.foldl_cons, realStep]; rw [ih]; simp; omega
    | ran ok =>
      cases ok <;> simp only [List.foldl_cons, realStep] <;> rw [ih] <;>
        simp <;> omega
    | raised =>
      simp only [List.foldl_cons, realStep]; rw [ih]; simp; omega

/-- Claim C2. For every completed run the produced summary satisfies the
aggregation invariant. In `run_connection_tests_async` one request is
submitted per connection and a run is completed when every request's result
was collected; the four status counts then sum to the total. The summary
carries no skipped-link categories at all: links skipped by the matcher or
the port filter never reach the runner, are counted nowhere, and do not
contribute to `total`, so the claimed equation holds with every skipped
count equal to zero. The sequential `RealRunConnection` summary satisfies
its corresponding invariant unconditionally. -/
theorem C2_theorem (n : Nat) (fetched : List (Option TestStatus))
    (events : List ConnEvent)
    (hlen : fetched.length = n)
    (hall : ∀ o ∈ fetched, o.isSome) :
    ((async_run_summary n fetched).success +
     (async_run_summary n fetched).failed +
     (async_run_summary n fetched).timeout +
     (async_run_summary n fetched).error + (0 + 0 + 0)
       = (async_run_summary n fetched).total) ∧
    ((RealRunConnection_summary events).success +
     (RealRunConnection_summary events).failure +
     (RealRunConnection_summary events).error
       = (RealRunConnection_summary events).total) := by
  constructor
  · show countStatus (fetched.filterMap id) TestStatus.success +
      countStatus (fetched.filterMap id) TestStatus.failed +
      countStatus (fetched.filterMap id) TestStatus.timeout +
      countStatus (fetched.filterMap id) TestStatus.error + (0 + 0 + 0) = n
    rw [countStatus_partition,
      length_filterMap_id_of_all_isSome fetched hall, hlen]
    omega
  · have h := real_counts_add events (0, 0, 0)
    simp only [Nat.zero_add] at h
    exact h

/-- Witness for C2: a completed run of two tests, one success and one
failure, plus a sequential run with one success and one error. -/
theorem C2_witness :
    ((async_run_summary 2
        [some TestStatus.success, some TestStatus.failed]).success +
     (async_run_summary 2
        [some TestStatus.success, some TestStatus.failed]).failed +
     (async_run_summary 2
        [some TestStatus.success, some TestStatus.failed]).timeout +
     (async_run_summary 2
        [some TestStatus.success, some TestStatus.failed]).error +
     (0 + 0 + 0)
       = (async_run_summary 2
           [some TestStatus.success, some TestStatus.failed]).total) ∧
    ((RealRunConnection_summary [ConnEvent.ran true, ConnEvent.raised]).success +
     (RealRunConnection_summary [ConnEvent.ran true, ConnEvent.raised]).failure +
     (RealRunConnection_summary [ConnEvent.ran true, ConnEvent.raised]).error
       = (RealRunConnection_summary
           [ConnEvent.ran true, ConnEvent.raised]).total) :=
  C2_theorem 2 [some TestStatus.success, some TestStatus.failed]
    [ConnEvent.ran true, ConnEvent.raised] rfl (by decide)

/-- Claim C7 (amended). If the descriptor file is unreadable
(`os.path.exists` fails, so `parse_connectivity_file` warns and returns no
connections), or the device inventory returns no devices (so no module
resolves), the run does not abort: it degrades to an empty run — no
connection record survives and no test request is queued, so no partial run
proceeds — and completes normally, returning an ok summary built over zero
connections. -/
theorem C7_theorem (file : Option (List (List Char)))
    (devices : List GaudiDevice) (fetched : List (Option TestStatus)) :
    (file = none → queued_test_requests file devices = [] ∧
      run_connection_tests file devices fetched
        = Except.ok (async_run_summary 0 fetched)) ∧
    (devices = [] → queued_test_requests file devices = [] ∧
      run_connection_tests file devices fetched
        = Except.ok (async_run_summary 0 fetched)) := by
  constructor
  · rintro rfl
    exact ⟨rfl, rfl⟩
  · rintro rfl
    have hm : match_devices_to_connections
        (parse_connectivity_file file) (device_dicts []) = [] := by
      rw [match_eq_filterMap]
      rw [List.filterMap_eq_nil_iff]
      intro c hc
      unfold matchConn
      split
      · rfl
      · rfl
    have hq : queued_test_requests file [] = [] := by
      unfold queued_test_requests make_connections
      rw [hm]
      rfl
    refine ⟨hq, ?_⟩
    unfold run_connection_tests
    rw [hq]
    rfl

/-- Witness for C7: the theorem applied to a run with an unreadable
descriptor. -/
theorem C7_witness :
    queued_test_requests none
        [⟨("b0"), some 0, ("hbl_0"), [(1, ⟨true, none⟩)]⟩] = [] ∧
    run_connection_tests none
        [⟨("b0"), some 0, ("hbl_0"), [(1, ⟨true, none⟩)]⟩] []
      = Except.ok (async_run_summary 0 []) :=
  (C7_theorem none [⟨("b0"), some 0, ("hbl_0"), [(1, ⟨true, none⟩)]⟩] []).1
    rfl

/-- Claim C7 fails as stated: the run never aborts. With an unreadable
descriptor, and likewise with an empty inventory, the code completes
normally and returns an ok summary with total 0 — the same outcome shape as
a successful run — whereas the specification requires a FatalInputError
that aborts the entire run. -/
theorem C7_counterexample :
    run_connection_tests none
        [⟨("b0"), some 0, ("hbl_0"), [(1, ⟨true, none⟩)]⟩] []
      = Except.ok
          { total := 0, submitted := 0, completed := 0, success := 0,
            failed := 0, timeout := 0, error := 0 } ∧
    run_connection_tests (some [("0\t1\t1\t1").toList]) [] []
      = Except.ok
          { total := 0, submitted := 0, completed := 0, success := 0,
            failed := 0, timeout := 0, error := 0 } ∧
    spec_fatal_input_outcome none
        [⟨("b0"), some 0, ("hbl_0"), [(1, ⟨true, none⟩)]⟩]
        { total := 0, submitted := 0, completed := 0, success := 0,
          failed := 0, timeout := 0, error := 0 }
      = Except.error ("FatalInputError") :=
  ⟨rfl, rfl, rfl⟩

/-- Claim C10. `PerfRunner.__init__` stores GID index 0 for both sides
whatever the caller passed, the stored state does not depend on the
requested GID indexes, and both `PerfRunner.build_command_args` and
`AsyncPerfRunner._build_command` emit the flag pair `-g 0` for the server
and the client command alike. -/
theorem C10_theorem (a : PerfRunnerArgs) (is_server : Bool)
    (path : String) (req : AsyncRequest) :
    (PerfRunner_init a).server_gid_idx = 0 ∧
    (PerfRunner_init a).client_gid_idx = 0 ∧
    (∀ g1 g2, PerfRunner_init
        { a with server_gid_idx := g1, client_gid_idx := g2 }
      = PerfRunner_init a) ∧
    (∃ pre post, build_command_args (PerfRunner_init a) is_server
      = pre ++ ("-g") :: ("0") :: post) ∧
    (∃ pre post, async_build_command path req is_server
      = pre ++ ("-g") :: ("0") :: post) := by
  refine ⟨rfl, rfl, fun g1 g2 => rfl, ?_, ?_⟩
  · cases is_server with
    | true =>
      refine ⟨[("/opt/habanalabs/perf-test/perf_test")] ++
        (if truthyInt a.port then [("-p"), toString a.port] else []) ++
        (if ¬ a.test_type.isEmpty then [("-t"), a.test_type] else []) ++
        (if truthyInt a.size then [("-s"), toString a.size] else []) ++
        (if truthyInt a.iterations then [("-n"), toString a.iterations]
          else []) ++
        (if truthyOptStr a.server_ib_dev then
          [("-d"), a.server_ib_dev.getD ("")] else []) ++
        (if truthyInt a.server_ib_port then
          [("-i"), toString a.server_ib_port] else []),
        a.extra_args, ?_⟩
      simp [build_command_args, PerfRunner_init]
    | false =>
      refine ⟨[("/opt/habanalabs/perf-test/perf_test")] ++
        (if truthyInt a.port then [("-p"), toString a.port] else []) ++
        (if ¬ a.test_type.isEmpty then [("-t"), a.test_type] else []) ++
        (if truthyInt a.size then [("-s"), toString a.size] else []) ++
        (if truthyInt a.iterations then [("-n"), toString a.iterations]
          else []) ++
        (if truthyOptStr a.client_ib_dev then
          [("-d"), a.client_ib_dev.getD ("")] else []) ++
        (if truthyInt a.client_ib_port then
          [("-i"), toString a.client_ib_port] else []),
        a.extra_args ++
          (if ¬ a.server_host.isEmpty then [a.server_host] else []), ?_⟩
      simp [build_command_args, PerfRunner_init]
  · cases is_server with
    | true =>
      refine ⟨[path, ("-t"), req.test_type, ("-s"), toString req.size,
        ("-n"), toString req.iterations] ++
        (if truthyOptStr req.source_ib_name then
          [("-d"), req.source_ib_name.getD ("")] else []) ++
        [("-i"), toString req.source_port], [], ?_⟩
      simp [async_build_command]
    | false =>
      refine ⟨[path, ("-t"), req.test_type, ("-s"), toString req.size,
        ("-n"), toString req.iterations] ++
        (if truthyOptStr req.dest_ib_name then
          [("-d"), req.dest_ib_name.getD ("")] else []) ++
        [("-i"), toString req.dest_port], [("127.0.0.1")], ?_⟩
      simp [async_build_command]

end GaudiConn

namespace GaudiConn

/-
Supporting lemmas for the worker pool bound.
-/

lemma getD_none_lt_length {α : Type} (w : List (Option α)) (i : Nat)
    (r : α) (h : w.getD i none = some r) : i < w.length := by
  by_contra hlt
  rw [List.getD_eq_default] at h
  · exact Option.noConfusion h
  · omega

lemma filterMap_id_set_some {α : Type} (w : List (Option α)) :
    ∀ i r, i < w.length → w.getD i none = none →
      ((w.set i (some r)).filterMap id).Perm (r :: w.filterMap id) := by
  induction w with
  | nil => intro i r hi _; simp at hi
  | cons o t ih =>
    intro i r hi hnone
    cases i with
    | zero =>
      have ho : o = none := by simpa using hnone
      subst ho
      simp [List.filterMap_cons]
    | succ j =>
      have hj : j < t.length := by simpa using hi
      have hjn : t.getD j none = none := by simpa using hnone
      cases o with
      | none =>
        simpa [List.filterMap_cons] using ih j r hj hjn
      | some x =>
        simp only [List.set_cons_succ, List.filterMap_cons, id]
        exact ((ih j r hj hjn).cons x).trans (List.Perm.swap r x _)

lemma filterMap_id_set_none {α : Type} [DecidableEq α]
    (w : List (Option α)) :
    ∀ i r, w.getD i none = some r →
      ((w.set i none).filterMap id).Perm ((w.filterMap id).erase r) := by
  induction w with
  | nil => intro i r h; simp [List.getD] at h
  | cons o t ih =>
    intro i r h
    cases i with
    | zero =>
      have ho : o = some r := by simpa using h
      subst ho
      simp [List.filterMap_cons]
    | succ j =>
      have hj : t.getD j none = some r := by simpa using h
      cases o with
      | none =>
        simpa [List.filterMap_cons] using ih j r hj
      | some x =>
        simp only [List.set_cons_succ, List.filterMap_cons, id]
        have hmem : r ∈ t.filterMap id := by
          rw [List.mem_filterMap]
          refine ⟨some r, ?_, rfl⟩
          have hjl : j < t.length := getD_none_lt_length t j r hj
          have := List.getD_eq_getElem t none hjl
          rw [this] at hj
          rw [← hj]
          exact List.getElem_mem hjl
        by_cases hxr : x = r
        · subst hxr
          rw [List.erase_cons_head]
          exact ((ih j x hj).cons x).trans
            (List.perm_cons_erase hmem).symm
        · rw [List.erase_cons_tail]
          · exact (ih j r hj).cons x
          · simpa using hxr

/-- The inductive invariant of the pool: the worker count is fixed and the
active_tests keys are, up to permutation, the requests currently in flight
at some worker. -/
def PoolInv (n : Nat) (s : PoolState) : Prop :=
  s.workers.length = n ∧ s.active.Perm (s.workers.filterMap id)

lemma poolInv_init (n : Nat) (pending : List String) :
    PoolInv n (initPool n pending) := by
  constructor
  · simp [initPool]
  · simp only [initPool]
    have : (List.replicate n (none : Option String)).filterMap id = [] := by
      induction n with
      | zero => simp
      | succ k ihk =>
        simp only [List.replicate_succ, List.filterMap_cons, id]
        exact ihk
    rw [this]

lemma poolInv_step (n : Nat) (s t : PoolState) (hst : PoolStep s t)
    (hinv : PoolInv n s) : PoolInv n t := by
  obtain ⟨hlen, hperm⟩ := hinv
  cases hst with
  | dequeue i r rest hi hw _ =>
    constructor
    · simpa using hlen
    · have h1 : ((s.workers.set i (some r)).filterMap id).Perm
          (r :: s.workers.filterMap id) :=
        filterMap_id_set_some s.workers i r hi hw
      have h2 : (s.active ++ [r]).Perm (r :: s.active) :=
        List.perm_append_singleton r s.active
      exact h2.trans ((hperm.cons r).trans h1.symm)
  | complete i r hw =>
    constructor
    · simpa using hlen
    · have h1 : ((s.workers.set i none).filterMap id).Perm
          ((s.workers.filterMap id).erase r) :=
        filterMap_id_set_none s.workers i r hw
      exact (hperm.erase r).trans h1.symm

lemma poolInv_reachable (n : Nat) (pending : List String) (s : PoolState)
    (h : PoolReachable n pending s) : PoolInv n s := by
  unfold PoolReachable at h
  induction h with
  | refl => exact poolInv_init n pending
  | tail _ hstep ih => exact poolInv_step n _ _ hstep ih

/-- Claim C9. In every state the worker pool can reach, the number of
in-flight tests (the active_tests entries, each of which owns the only
process pair spawned for its request) never exceeds the configured number
of workers: `AsyncPerfRunner.start` creates exactly `max_concurrent_tests`
worker tasks and each worker awaits its current test before dequeueing
another. -/
theorem C9_theorem (n : Nat) (pending : List String) (s : PoolState)
    (h : PoolReachable n pending s) : s.active.length ≤ n := by
  obtain ⟨hlen, hperm⟩ := poolInv_reachable n pending s h
  calc s.active.length = (s.workers.filterMap id).length :=
        hperm.length_eq
    _ ≤ s.workers.length := List.length_filterMap_le id s.workers
    _ = n := hlen

/-- Witness for C9: the bound at a concretely reached state (one dequeue
step from the initial two-worker pool). -/
theorem C9_witness :
    (PoolState.mk [] [some ("r1"), none] ([] ++ [("r1")])).active.length
      ≤ 2 :=
  C9_theorem 2 [("r1")] _
    (Relation.ReflTransGen.single
      (PoolStep.dequeue (initPool 2 [("r1")]) 0 ("r1") [] (by simp [initPool])
        (by simp [initPool]) rfl))

end GaudiConn

namespace GaudiConn

/-
Supporting lemmas for the port-health filter.
-/

lemma portsFind_eq_of_mem (ports : List (Int × PortInfo)) (p : Int)
    (s : PortInfo) (hnd : (ports.map Prod.fst).Nodup)
    (hmem : (p, s) ∈ ports) : portsFind ports p = some s := by
  induction ports with
  | nil => simp at hmem
  | cons q t ih =>
    rcases List.mem_cons.mp hmem with heq | hmem2
    · subst heq
      simp [portsFind, List.find?_cons]
    · have hq : ¬ (q.1 = p) := by
        intro hqp
        have hp : p ∈ t.map Prod.fst :=
          List.mem_map.mpr ⟨(p, s), hmem2, rfl⟩
        rw [List.map_cons, List.nodup_cons] at hnd
        rw [hqp] at hnd
        exact hnd.1 hp
      have hnd2 : (t.map Prod.fst).Nodup := by
        rw [List.map_cons, List.nodup_cons] at hnd
        exact hnd.2
      have htail := ih hnd2 hmem2
      unfold portsFind at htail ⊢
      rw [List.find?_cons_of_neg _ (by simpa using hq)]
      exact htail

lemma portsFind_mem (ports : List (Int × PortInfo)) (p : Int)
    (s : PortInfo) (h : portsFind ports p = some s) : (p, s) ∈ ports := by
  unfold portsFind at h
  cases hf : ports.find? (fun q => q.1 = p) with
  | none => rw [hf] at h; exact Option.noConfusion h
  | some x =>
    rw [hf] at h
    have hx : x.2 = s := by simpa using h
    have hp : x.1 = p := by
      have := List.find?_some hf
      simpa using this
    have hxm : x ∈ ports := List.mem_of_find?_eq_some hf
    have : x = (p, s) := by
      cases x
      simp only at hx hp
      rw [hx, hp]
    rw [← this]
    exact hxm

lemma contains_active_iff (ports : List (Int × PortInfo)) (p : Int)
    (hnd : (ports.map Prod.fst).Nodup) :
    ((ports.filter (fun q => q.2.is_active)).map (fun q => q.1)).contains p
      ↔ ∃ s, portsFind ports p = some s ∧ s.is_active = true := by
  constructor
  · intro h
    have hp : p ∈ (ports.filter (fun q => q.2.is_active)).map
        (fun q => q.1) := by
      simpa [List.contains] using h
    obtain ⟨q, hq, hq1⟩ := List.mem_map.mp hp
    obtain ⟨hqm, hact⟩ := List.mem_filter.mp hq
    refine ⟨q.2, ?_, by simpa using hact⟩
    have : q = (p, q.2) := by
      cases q
      simp only at hq1
      rw [hq1]
    rw [this] at hqm
    exact portsFind_eq_of_mem ports p q.2 hnd hqm
  · rintro ⟨s, hfind, hact⟩
    have hmem : (p, s) ∈ ports := portsFind_mem ports p s hfind
    have : (p, s) ∈ ports.filter (fun q => q.2.is_active) :=
      List.mem_filter.mpr ⟨hmem, by simpa using hact⟩
    have hp : p ∈ (ports.filter (fun q => q.2.is_active)).map
        (fun q => q.1) := List.mem_map.mpr ⟨(p, s), this, rfl⟩
    simpa [List.contains] using hp

lemma dictFind_active_ports (devices : List GaudiDevice) (bus : String) :
    dictFind (get_active_ports devices) bus
      = (get_device_by_bus_id devices bus).map
          (fun d => (d.ports.filter (fun q => q.2.is_active)).map
            (fun q => q.1)) := by
  induction devices with
  | nil => rfl
  | cons d t ih =>
    by_cases hb : d.bus_id = bus
    · unfold dictFind get_active_ports get_device_by_bus_id
      simp only [List.map_cons]
      rw [List.find?_cons_of_pos _ (by simpa using hb),
        List.find?_cons_of_pos _ (by simpa using hb)]
      rfl
    · unfold dictFind get_active_ports get_device_by_bus_id at ih ⊢
      simp only [List.map_cons]
      rw [List.find?_cons_of_neg _ (by simpa using hb),
        List.find?_cons_of_neg _ (by simpa using hb)]
      exact ih

lemma mem_of_get_device (devices : List GaudiDevice) (bus : String)
    (d : GaudiDevice) (h : get_device_by_bus_id devices bus = some d) :
    d ∈ devices :=
  List.mem_of_find?_eq_some h

lemma recordOf_isSome_iff (devices : List GaudiDevice)
    (m : MatchedConnection)
    (hnd : ∀ d ∈ devices, (d.ports.map Prod.fst).Nodup) :
    (connectionRecordOf devices true m).isSome
      ↔ spec_both_ports_active devices m := by
  cases hs : get_device_by_bus_id devices m.source_device_id with
  | none =>
    have hnone : connectionRecordOf devices true m = none := by
      unfold connectionRecordOf
      rw [hs]
    rw [hnone]
    unfold spec_both_ports_active
    simp [hs]
  | some sd =>
    cases hd : get_device_by_bus_id devices m.dest_device_id with
    | none =>
      have hnone : connectionRecordOf devices true m = none := by
        unfold connectionRecordOf
        rw [hs, hd]
      rw [hnone]
      unfold spec_both_ports_active
      simp [hd]
    | some dd =>
      have hfs : dictFind (get_active_ports devices) m.source_device_id
          = some ((sd.ports.filter (fun q => q.2.is_active)).map
              (fun q => q.1)) := by
        rw [dictFind_active_ports, hs]; rfl
      have hfd : dictFind (get_active_ports devices) m.dest_device_id
          = some ((dd.ports.filter (fun q => q.2.is_active)).map
              (fun q => q.1)) := by
        rw [dictFind_active_ports, hd]; rfl
      have hiff : (connectionRecordOf devices true m).isSome
          ↔ (((sd.ports.filter (fun q => q.2.is_active)).map
                (fun q => q.1)).contains m.source.port = true ∧
             ((dd.ports.filter (fun q => q.2.is_active)).map
                (fun q => q.1)).contains m.destination.port = true) := by
        simp only [connectionRecordOf, hs, hd, hfs, hfd]
        cases hA : ((sd.ports.filter (fun q => q.2.is_active)).map
            (fun q => q.1)).contains m.source.port <;>
          cases hB : ((dd.ports.filter (fun q => q.2.is_active)).map
              (fun q => q.1)).contains m.destination.port <;>
            simp [hA, hB]
      rw [hiff]
      have hcs := contains_active_iff sd.ports m.source.port
        (hnd sd (mem_of_get_device devices m.source_device_id sd hs))
      have hcd := contains_active_iff dd.ports m.destination.port
        (hnd dd (mem_of_get_device devices m.dest_device_id dd hd))
      unfold spec_both_ports_active
      constructor
      · rintro ⟨hA, hB⟩
        obtain ⟨s1, hf1, ha1⟩ := hcs.mp hA
        obtain ⟨s2, hf2, ha2⟩ := hcd.mp hB
        exact ⟨⟨sd, s1, hs, hf1, ha1⟩, ⟨dd, s2, hd, hf2, ha2⟩⟩
      · rintro ⟨⟨d1, s1, hd1, hf1, ha1⟩, ⟨d2, s2, hd2, hf2, ha2⟩⟩
        rw [hs] at hd1
        rw [hd] at hd2
        cases Option.some.inj hd1
        cases Option.some.inj hd2
        exact ⟨hcs.mpr ⟨s1, hf1, ha1⟩, hcd.mpr ⟨s2, hf2, ha2⟩⟩

/-- Claim C5 (amended). With verification on, the Port Health Filter of
`RunConnection.make_connections` retains a validated link if and only if
both endpoint bus ids resolve in the inventory and both endpoint ports
report `is_active == true` (the hypothesis states that every device's port
dict has distinct keys, which holds for Python dicts); but a dropped link
carries no reason: it contributes nothing to the output, each link being
processed independently. -/
theorem C5_theorem (devices : List GaudiDevice) (m : MatchedConnection)
    (matched : List MatchedConnection)
    (hnd : ∀ d ∈ devices, (d.ports.map Prod.fst).Nodup) :
    ((connectionRecordOf devices true m).isSome
      ↔ spec_both_ports_active devices m) ∧
    make_connections_from_matched devices (m :: matched) true
      = (connectionRecordOf devices true m).toList ++
        make_connections_from_matched devices matched true := by
  refine ⟨recordOf_isSome_iff devices m hnd, ?_⟩
  unfold make_connections_from_matched
  cases h : connectionRecordOf devices true m <;>
    simp [List.filterMap_cons, h]

end GaudiConn

namespace GaudiConn

/-- Witness for C5: the theorem applied to a two-device inventory with all
ports active and one matched link. -/
theorem C5_witness :
    ((connectionRecordOf
        [⟨("b0"), some 0, ("hbl_0"), [(1, ⟨true, none⟩)]⟩,
         ⟨("b1"), some 1, ("hbl_1"), [(1, ⟨true, none⟩)]⟩] true
        ⟨⟨0,1⟩,⟨1,1⟩,("b0"),("b1")⟩).isSome
      ↔ spec_both_ports_active
          [⟨("b0"), some 0, ("hbl_0"), [(1, ⟨true, none⟩)]⟩,
           ⟨("b1"), some 1, ("hbl_1"), [(1, ⟨true, none⟩)]⟩]
          ⟨⟨0,1⟩,⟨1,1⟩,("b0"),("b1")⟩) ∧
    make_connections_from_matched
        [⟨("b0"), some 0, ("hbl_0"), [(1, ⟨true, none⟩)]⟩,
         ⟨("b1"), some 1, ("hbl_1"), [(1, ⟨true, none⟩)]⟩]
        (⟨⟨0,1⟩,⟨1,1⟩,("b0"),("b1")⟩ :: []) true
      = (connectionRecordOf
          [⟨("b0"), some 0, ("hbl_0"), [(1, ⟨true, none⟩)]⟩,
           ⟨("b1"), some 1, ("hbl_1"), [(1, ⟨true, none⟩)]⟩] true
          ⟨⟨0,1⟩,⟨1,1⟩,("b0"),("b1")⟩).toList ++
        make_connections_from_matched
          [⟨("b0"), some 0, ("hbl_0"), [(1, ⟨true, none⟩)]⟩,
           ⟨("b1"), some 1, ("hbl_1"), [(1, ⟨true, none⟩)]⟩] [] true :=
  C5_theorem
    [⟨("b0"), some 0, ("hbl_0"), [(1, ⟨true, none⟩)]⟩,
     ⟨("b1"), some 1, ("hbl_1"), [(1, ⟨true, none⟩)]⟩]
    ⟨⟨0,1⟩,⟨1,1⟩,("b0"),("b1")⟩ [] (by decide)

/-- Claim C5 fails as stated in its drop-reason part: a resolved link whose
destination port is inactive is dropped, but the filter output for that
batch is identical to the output for an empty batch, although the
specification requires the dropped link to carry a reason naming the
destination side; no component of the filter's output carries any reason. -/
theorem C5_counterexample :
    make_connections_from_matched
        [⟨("b0"), some 0, ("hbl_0"), [(1, ⟨true, none⟩)]⟩,
         ⟨("b1"), some 1, ("hbl_1"), [(1, ⟨false, none⟩)]⟩]
        [⟨⟨0,1⟩,⟨1,1⟩,("b0"),("b1")⟩] true
      = make_connections_from_matched
        [⟨("b0"), some 0, ("hbl_0"), [(1, ⟨true, none⟩)]⟩,
         ⟨("b1"), some 1, ("hbl_1"), [(1, ⟨false, none⟩)]⟩] [] true ∧
    spec_drop_reasons
        [⟨("b0"), some 0, ("hbl_0"), [(1, ⟨true, none⟩)]⟩,
         ⟨("b1"), some 1, ("hbl_1"), [(1, ⟨false, none⟩)]⟩]
        [⟨⟨0,1⟩,⟨1,1⟩,("b0"),("b1")⟩]
      = [DropReason.destination_port_inactive] ∧
    spec_drop_reasons
        [⟨("b0"), some 0, ("hbl_0"), [(1, ⟨true, none⟩)]⟩,
         ⟨("b1"), some 1, ("hbl_1"), [(1, ⟨false, none⟩)]⟩] []
      = [] := by decide

/-
Supporting lemmas for the result classifier.
-/

lemma scanLines_none_iff (lines : List (List Char)) (sf : Bool) :
    scanLines lines sf = none ↔ lines.any hasErrMarker = true := by
  induction lines generalizing sf with
  | nil => simp [scanLines]
  | cons l t ih =>
    by_cases he : hasErrMarker l
    · simp [scanLines, he]
    · simp [scanLines, he, ih]

lemma scanLines_some (lines : List (List Char)) (sf : Bool)
    (h : lines.any hasErrMarker = false) :
    scanLines lines sf = some (sf || lines.any hasMetricMarker) := by
  induction lines generalizing sf with
  | nil => simp [scanLines]
  | cons l t ih =>
    rw [List.any_cons, Bool.or_eq_false_iff] at h
    rw [scanLines]
    rw [if_neg (by simp [h.1])]
    rw [ih _ h.2, List.any_cons, Bool.or_assoc]

lemma spec_rule_status_cases (rc : Int) (client server : List (List Char)) :
    spec_rule_status rc client server = TestStatus.success ∨
    spec_rule_status rc client server = TestStatus.failed := by
  unfold spec_rule_status
  split_ifs <;> simp

lemma analyze_eq_spec_rule (rc : Int) (client server : List (List Char)) :
    analyze_output client server rc = spec_rule_status rc client server := by
  unfold analyze_output spec_rule_status
  by_cases h0 : rc = 0
  · subst h0
    simp only [ne_eq, not_true_eq_false, if_false, reduceIte]
    cases herr : (client ++ server).any hasErrMarker with
    | true =>
      rw [(scanLines_none_iff (client ++ server) false).mpr herr]
      simp [herr]
    | false =>
      rw [scanLines_some (client ++ server) false herr]
      simp only [Bool.false_or, herr, Bool.false_eq_true, if_false]
      cases hc : client.contains testPassLine <;>
        cases hs2 : server.contains testPassLine <;>
          simp [hc, hs2]
  · simp [h0]

/-- Claim C6 (amended). The classifier `_analyze_output` applies exactly the
claimed rules in the claimed order; but the effective status assigned by
`_run_single_test` further overrides a failed classification to success
whenever the exact line `Test PASS` appears in both output streams, so the
effective rule is: success if `Test PASS` is in both streams (even with a
non-zero exit code or an error marker), otherwise the five rules in
order. -/
theorem C6_theorem (rc : Int) (client server : List (List Char)) :
    analyze_output client server rc = spec_rule_status rc client server ∧
    run_single_status client server rc
      = (if client.contains testPassLine ∧ server.contains testPassLine
          then TestStatus.success
          else spec_rule_status rc client server) := by
  refine ⟨analyze_eq_spec_rule rc client server, ?_⟩
  unfold run_single_status
  rw [analyze_eq_spec_rule rc client server]
  by_cases hcs : client.contains testPassLine = true ∧
      server.contains testPassLine = true
  · rcases spec_rule_status_cases rc client server with hv | hv <;>
      rw [hv] <;> simp [hcs]
  · rcases spec_rule_status_cases rc client server with hv | hv <;>
      rw [hv] <;> simp [hcs]

/-- Claim C6 fails as stated: with client exit code 1 and both streams
consisting of the line `Test PASS`, rule (1) requires status failed, but
`_run_single_test` overrides the classifier and reports success. -/
theorem C6_counterexample :
    run_single_status [testPassLine] [testPassLine] 1
      = TestStatus.success ∧
    spec_rule_status 1 [testPassLine] [testPassLine]
      = TestStatus.failed := by decide

end GaudiConn

namespace GaudiConn

/-
Supporting lemmas for the heapq embedding: index arithmetic, getD/set
interaction, and multiset bookkeeping.
-/

lemma getD_set_self {α : Type} (l : List α) (i : Nat) (x d : α)
    (h : i < l.length) : (l.set i x).getD i d = x := by
  induction l generalizing i with
  | nil => simp at h
  | cons a t ih =>
    cases i with
    | zero => rfl
    | succ j =>
      have hj : j < t.length := by simpa using h
      simpa using ih j hj

lemma getD_set_ne {α : Type} (l : List α) (i j : Nat) (x d : α)
    (h : i ≠ j) : (l.set i x).getD j d = l.getD j d := by
  induction l generalizing i j with
  | nil => simp
  | cons a t ih =>
    cases i with
    | zero =>
      cases j with
      | zero => exact absurd rfl h
      | succ k => rfl
    | succ i2 =>
      cases j with
      | zero => rfl
      | succ k =>
        have : i2 ≠ k := by omega
        simpa using ih i2 k this

lemma keyAt_set_self (l : List QEntry) (i : Nat) (x : QEntry)
    (h : i < l.length) : keyAt (l.set i x) i = x.priority := by
  unfold keyAt
  rw [getD_set_self l i x default h]

lemma keyAt_set_ne (l : List QEntry) (i j : Nat) (x : QEntry)
    (h : i ≠ j) : keyAt (l.set i x) j = keyAt l j := by
  unfold keyAt
  rw [getD_set_ne l i j x default h]

lemma parentIdx_lt (i : Nat) (h : 0 < i) : parentIdx i < i := by
  unfold parentIdx
  have := Nat.div_le_self (i - 1) 2
  omega

lemma parentIdx_child_cases (j i : Nat) (hj : 0 < j)
    (hp : parentIdx j = i) : j = 2 * i + 1 ∨ j = 2 * i + 2 := by
  unfold parentIdx at hp
  have hdm := Nat.div_add_mod (j - 1) 2
  have hm : (j - 1) % 2 < 2 := Nat.mod_lt _ (by omega)
  omega

lemma parentIdx_left (i : Nat) : parentIdx (2 * i + 1) = i := by
  unfold parentIdx
  simp [Nat.mul_div_cancel_left]

lemma parentIdx_right (i : Nat) : parentIdx (2 * i + 2) = i := by
  unfold parentIdx
  have : 2 * i + 2 - 1 = 2 * i + 1 := by omega
  rw [this, Nat.mul_add_div (by omega)]
  omega

lemma keyAt_zero_le (l : List QEntry) (hl : IsHeap l) :
    ∀ i, i < l.length → keyAt l 0 ≤ keyAt l i := by
  intro i
  induction i using Nat.strong_induction_on with
  | _ i ih =>
    intro hi
    rcases Nat.eq_zero_or_pos i with h0 | hpos
    · subst h0; exact le_refl _
    · have hp := parentIdx_lt i hpos
      exact le_trans (ih (parentIdx i) hp (lt_trans hp hi)) (hl i hpos hi)

lemma multiset_set : ∀ (l : List QEntry) (i : Nat) (x : QEntry),
    i < l.length →
    ((l.set i x : List QEntry) : Multiset QEntry) + {l.getD i default}
      = (l : Multiset QEntry) + {x} := by
  intro l
  induction l with
  | nil => intro i x hi; simp at hi
  | cons a t ih =>
    intro i x hi
    cases i with
    | zero =>
      rw [List.set_cons_zero, List.getD_cons_zero,
        ← Multiset.cons_coe, ← Multiset.cons_coe,
        add_comm, Multiset.singleton_add, add_comm,
        Multiset.singleton_add]
      exact Multiset.cons_swap a x (↑t : Multiset QEntry)
    | succ j =>
      have hj : j < t.length := by simpa using hi
      rw [List.set_cons_succ, List.getD_cons_succ,
        ← Multiset.cons_coe, ← Multiset.cons_coe,
        Multiset.cons_add, Multiset.cons_add, ih j x hj]

lemma multiset_set_set (l : List QEntry) (p q : Nat) (x : QEntry)
    (hp : p < l.length) (hq : q < l.length) (hne : p ≠ q) :
    (((l.set p (l.getD q default)).set q x : List QEntry) :
        Multiset QEntry)
      = ((l.set p x : List QEntry) : Multiset QEntry) := by
  have h1 := multiset_set (l.set p (l.getD q default)) q x
    (by rw [List.length_set]; exact hq)
  rw [getD_set_ne l p q _ default hne] at h1
  have h2 := multiset_set l p (l.getD q default) hp
  have h3 := multiset_set l p x hp
  have key :
      (((l.set p (l.getD q default)).set q x : List QEntry) :
          Multiset QEntry) +
        ({l.getD q default} + {l.getD p default})
      = ((l.set p x : List QEntry) : Multiset QEntry) +
        ({l.getD q default} + {l.getD p default}) := by
    calc (((l.set p (l.getD q default)).set q x : List QEntry) :
            Multiset QEntry) +
          ({l.getD q default} + {l.getD p default})
        = ((((l.set p (l.getD q default)).set q x : List QEntry) :
            Multiset QEntry) + {l.getD q default}) + {l.getD p default} :=
          (add_assoc _ _ _).symm
      _ = (((l.set p (l.getD q default) : List QEntry) :
            Multiset QEntry) + {x}) + {l.getD p default} := by rw [h1]
      _ = (((l.set p (l.getD q default) : List QEntry) :
            Multiset QEntry) + {l.getD p default}) + {x} :=
          add_right_comm _ _ _
      _ = ((l : Multiset QEntry) + {l.getD q default}) + {x} := by
          rw [h2]
      _ = ((l : Multiset QEntry) + {x}) + {l.getD q default} :=
          add_right_comm _ _ _
      _ = (((l.set p x : List QEntry) : Multiset QEntry) +
            {l.getD p default}) + {l.getD q default} := by rw [h3]
      _ = ((l.set p x : List QEntry) : Multiset QEntry) +
            ({l.getD p default} + {l.getD q default}) := add_assoc _ _ _
      _ = ((l.set p x : List QEntry) : Multiset QEntry) +
            ({l.getD q default} + {l.getD p default}) := by
          rw [add_comm ({l.getD p default} : Multiset QEntry)]
  exact add_right_cancel key

end GaudiConn

namespace GaudiConn

/-- Heap-except-hole invariant: every parent-child edge not touching the
hole position satisfies the heap inequality. -/
def HoleInvB (heap : List QEntry) (pos : Nat) : Prop :=
  ∀ i, 0 < i → i < heap.length → i ≠ pos → parentIdx i ≠ pos →
    keyAt heap (parentIdx i) ≤ keyAt heap i

/-- Hole invariant for bubble-up: the item in hand is at most every child of
the hole. -/
def HoleInvC (heap : List QEntry) (pos : Nat) (x : QEntry) : Prop :=
  ∀ i, 0 < i → i < heap.length → parentIdx i = pos →
    x.priority ≤ keyAt heap i

/-- Hole invariant: the hole's parent is at most every child of the hole. -/
def HoleInvD (heap : List QEntry) (pos : Nat) : Prop :=
  ∀ i, 0 < i → i < heap.length → parentIdx i = pos → 0 < pos →
    keyAt heap (parentIdx pos) ≤ keyAt heap i

lemma siftdownF_spec : ∀ (fuel pos : Nat) (heap : List QEntry) (x : QEntry),
    pos < fuel → pos < heap.length →
    HoleInvB heap pos → HoleInvC heap pos x → HoleInvD heap pos →
    IsHeap (siftdownF fuel heap 0 pos x) ∧
    (siftdownF fuel heap 0 pos x).length = heap.length ∧
    ((siftdownF fuel heap 0 pos x : List QEntry) : Multiset QEntry)
      = ((heap.set pos x : List QEntry) : Multiset QEntry) := by
  intro fuel
  induction fuel with
  | zero => intro pos heap x hf; omega
  | succ f ih =>
    intro pos heap x hf hlen hB hC hD
    rcases Nat.eq_zero_or_pos pos with hpos | hpos
    · subst hpos
      have hres : siftdownF (f + 1) heap 0 0 x = heap.set 0 x := by
        simp only [siftdownF]
        rw [if_neg (lt_irrefl 0)]
      rw [hres]
      refine ⟨?_, by simp, rfl⟩
      intro i hi0 hilen
      rw [List.length_set] at hilen
      have hine : i ≠ 0 := by omega
      by_cases hpi : parentIdx i = 0
      · rw [keyAt_set_ne heap 0 i x (fun h => hine h.symm), hpi,
          keyAt_set_self heap 0 x (by omega)]
        exact hC i hi0 hilen hpi
      · rw [keyAt_set_ne heap 0 i x (fun h => hine h.symm),
          keyAt_set_ne heap 0 (parentIdx i) x (fun h => hpi h.symm)]
        exact hB i hi0 hilen hine hpi
    · have hq : parentIdx pos < pos := parentIdx_lt pos hpos
      by_cases hlt :
          x.priority < (heap.getD (parentIdx pos) default).priority
      · have hres : siftdownF (f + 1) heap 0 pos x
            = siftdownF f
                (heap.set pos (heap.getD (parentIdx pos) default))
                0 (parentIdx pos) x := by
          simp only [siftdownF]
          rw [if_pos hpos, if_pos hlt]
        rw [hres]
        set v := heap.getD (parentIdx pos) default with hv
        set q := parentIdx pos with hqdef
        have hlen2 : q < (heap.set pos v).length := by
          rw [List.length_set]; omega
        have hB2 : HoleInvB (heap.set pos v) q := by
          intro i hi0 hilen hiq hpiq
          rw [List.length_set] at hilen
          by_cases hipos : i = pos
          · subst hipos
            exact absurd hqdef.symm hpiq
          · by_cases hpip : parentIdx i = pos
            · rw [hpip, keyAt_set_self heap pos v hlen,
                keyAt_set_ne heap pos i v (fun h => hipos h.symm)]
              exact hD i hi0 hilen hpip hpos
            · rw [keyAt_set_ne heap pos i v (fun h => hipos h.symm),
                keyAt_set_ne heap pos (parentIdx i) v
                  (fun h => hpip h.symm)]
              exact hB i hi0 hilen hipos hpip
        have hC2 : HoleInvC (heap.set pos v) q x := by
          intro i hi0 hilen hpi
          rw [List.length_set] at hilen
          by_cases hipos : i = pos
          · rw [hipos, keyAt_set_self heap pos v hlen]
            exact le_of_lt hlt
          · rw [keyAt_set_ne heap pos i v (fun h => hipos h.symm)]
            have hbi := hB i hi0 hilen hipos (by rw [hpi]; omega)
            rw [hpi] at hbi
            exact le_trans (le_of_lt hlt) hbi
        have hD2 : HoleInvD (heap.set pos v) q := by
          intro i hi0 hilen hpi hq0
          have hpq : parentIdx q < q := parentIdx_lt q hq0
          rw [List.length_set] at hilen
          rw [keyAt_set_ne heap pos (parentIdx q) v (by omega)]
          have hBq := hB q hq0 (by omega) (by omega) (by omega)
          by_cases hipos : i = pos
          · rw [hipos, keyAt_set_self heap pos v hlen]
            exact hBq
          · rw [keyAt_set_ne heap pos i v (fun h => hipos h.symm)]
            have hbi := hB i hi0 hilen hipos (by rw [hpi]; omega)
            rw [hpi] at hbi
            exact le_trans hBq hbi
        obtain ⟨ha, hb, hc⟩ :=
          ih q (heap.set pos v) x (by omega) hlen2 hB2 hC2 hD2
        refine ⟨ha, ?_, ?_⟩
        · rw [hb, List.length_set]
        · rw [hc]
          exact multiset_set_set heap pos q x hlen (by omega) (by omega)
      · have hres : siftdownF (f + 1) heap 0 pos x = heap.set pos x := by
          simp only [siftdownF]
          rw [if_pos hpos, if_neg hlt]
        rw [hres]
        refine ⟨?_, by simp, rfl⟩
        intro i hi0 hilen
        rw [List.length_set] at hilen
        by_cases hipos : i = pos
        · subst hipos
          rw [keyAt_set_ne heap i (parentIdx i) x (by omega),
            keyAt_set_self heap i x hlen]
          exact not_lt.mp hlt
        · by_cases hpi : parentIdx i = pos
          · rw [keyAt_set_ne heap pos i x (fun h => hipos h.symm), hpi,
              keyAt_set_self heap pos x hlen]
            exact hC i hi0 hilen hpi
          · rw [keyAt_set_ne heap pos i x (fun h => hipos h.symm),
              keyAt_set_ne heap pos (parentIdx i) x (fun h => hpi h.symm)]
            exact hB i hi0 hilen hipos hpi

end GaudiConn

namespace GaudiConn

lemma siftupLoop_step (heap : List QEntry) (pos c : Nat)
    (h0c : 0 < c) (hlen : pos < heap.length) (hc : c < heap.length)
    (hpc : parentIdx c = pos)
    (hmin : ∀ j, 0 < j → j < heap.length → parentIdx j = pos →
      keyAt heap c ≤ keyAt heap j)
    (hB : HoleInvB heap pos) (hD : HoleInvD heap pos) :
    HoleInvB (heap.set pos (heap.getD c default)) c ∧
    HoleInvD (heap.set pos (heap.getD c default)) c := by
  have hposc : pos < c := by
    have := parentIdx_lt c h0c
    omega
  constructor
  · intro i hi0 hilen hic hpic
    rw [List.length_set] at hilen
    by_cases hipos : i = pos
    · have hpos0 : 0 < pos := by omega
      have hppl := parentIdx_lt pos hpos0
      rw [hipos, keyAt_set_ne heap pos (parentIdx pos) _ (by omega),
        keyAt_set_self heap pos _ hlen]
      exact hD c h0c hc hpc hpos0
    · by_cases hpip : parentIdx i = pos
      · rw [hpip, keyAt_set_self heap pos _ hlen,
          keyAt_set_ne heap pos i _ (fun h => hipos h.symm)]
        exact hmin i hi0 hilen hpip
      · rw [keyAt_set_ne heap pos i _ (fun h => hipos h.symm),
          keyAt_set_ne heap pos (parentIdx i) _ (fun h => hpip h.symm)]
        exact hB i hi0 hilen hipos hpip
  · intro i hi0 hilen hpi hc0
    rw [List.length_set] at hilen
    have hic2 : i ≠ pos := by
      rcases parentIdx_child_cases i c hi0 hpi with h1 | h1 <;> omega
    rw [hpc, keyAt_set_self heap pos _ hlen,
      keyAt_set_ne heap pos i _ (fun h => hic2 h.symm)]
    have hbi := hB i hi0 hilen hic2 (by rw [hpi]; omega)
    rw [hpi] at hbi
    exact hbi

lemma siftupLoopF_spec : ∀ (fuel pos : Nat) (heap : List QEntry),
    heap.length ≤ fuel + pos → pos < heap.length →
    HoleInvB heap pos → HoleInvD heap pos →
    (siftupLoopF fuel heap pos).1.length = heap.length ∧
    (siftupLoopF fuel heap pos).2 < heap.length ∧
    heap.length ≤ 2 * (siftupLoopF fuel heap pos).2 + 1 ∧
    HoleInvB (siftupLoopF fuel heap pos).1 (siftupLoopF fuel heap pos).2 ∧
    ∀ x, (((siftupLoopF fuel heap pos).1.set
          (siftupLoopF fuel heap pos).2 x : List QEntry) : Multiset QEntry)
        = ((heap.set pos x : List QEntry) : Multiset QEntry) := by
  intro fuel
  induction fuel with
  | zero =>
    intro pos heap hfuel hlen hB hD
    exact absurd hlen (by omega)
  | succ f ih =>
    intro pos heap hfuel hlen hB hD
    by_cases hch : 2 * pos + 1 < heap.length
    · suffices hgen : ∀ c, 0 < c → c < heap.length → parentIdx c = pos →
          (∀ j, 0 < j → j < heap.length → parentIdx j = pos →
            keyAt heap c ≤ keyAt heap j) →
          ((siftupLoopF f (heap.set pos (heap.getD c default)) c).1.length
              = heap.length ∧
           (siftupLoopF f (heap.set pos (heap.getD c default)) c).2
              < heap.length ∧
           heap.length ≤ 2 * (siftupLoopF f
              (heap.set pos (heap.getD c default)) c).2 + 1 ∧
           HoleInvB (siftupLoopF f
              (heap.set pos (heap.getD c default)) c).1
             (siftupLoopF f (heap.set pos (heap.getD c default)) c).2 ∧
           ∀ x, (((siftupLoopF f
                (heap.set pos (heap.getD c default)) c).1.set
                (siftupLoopF f (heap.set pos (heap.getD c default)) c).2 x :
                  List QEntry) : Multiset QEntry)
              = ((heap.set pos x : List QEntry) : Multiset QEntry)) by
        by_cases hcond : 2 * pos + 1 + 1 < heap.length ∧
            ¬ (heap.getD (2 * pos + 1) default).priority <
              (heap.getD (2 * pos + 1 + 1) default).priority
        · have hres : siftupLoopF (f + 1) heap pos
              = siftupLoopF f
                  (heap.set pos (heap.getD (2 * pos + 1 + 1) default))
                  (2 * pos + 1 + 1) := by
            simp only [siftupLoopF]
            rw [if_pos hch, if_pos hcond]
          rw [hres]
          refine hgen (2 * pos + 1 + 1) (by omega) hcond.1 ?_ ?_
          · exact parentIdx_right pos
          · intro j hj0 hjlen hpj
            rcases parentIdx_child_cases j pos hj0 hpj with h1 | h1
            · rw [h1]
              exact not_lt.mp hcond.2
            · rw [h1]
        · have hres : siftupLoopF (f + 1) heap pos
              = siftupLoopF f
                  (heap.set pos (heap.getD (2 * pos + 1) default))
                  (2 * pos + 1) := by
            simp only [siftupLoopF]
            rw [if_pos hch, if_neg hcond]
          rw [hres]
          refine hgen (2 * pos + 1) (by omega) hch ?_ ?_
          · exact parentIdx_left pos
          · intro j hj0 hjlen hpj
            rcases parentIdx_child_cases j pos hj0 hpj with h1 | h1
            · rw [h1]
            · rw [h1]
              rw [h1] at hjlen
              have hltc : (heap.getD (2 * pos + 1) default).priority <
                  (heap.getD (2 * pos + 1 + 1) default).priority := by
                by_contra hnl
                exact hcond ⟨by omega, hnl⟩
              exact le_of_lt hltc
      intro c h0c hc hpc hmin
      have hposc : pos < c := by
        have := parentIdx_lt c h0c
        omega
      obtain ⟨hB2, hD2⟩ :=
        siftupLoop_step heap pos c h0c hlen hc hpc hmin hB hD
      obtain ⟨l1, l2, l3, l4, l5⟩ :=
        ih c (heap.set pos (heap.getD c default))
          (by rw [List.length_set]; omega)
          (by rw [List.length_set]; omega) hB2 hD2
      rw [List.length_set] at l1 l2 l3
      refine ⟨l1, l2, l3, l4, ?_⟩
      intro x
      rw [l5 x]
      exact multiset_set_set heap pos c x hlen hc (by omega)
    · have hres : siftupLoopF (f + 1) heap pos = (heap, pos) := by
        simp only [siftupLoopF]
        rw [if_neg hch]
      rw [hres]
      exact ⟨rfl, hlen, by omega, hB, fun x => rfl⟩

end GaudiConn

namespace GaudiConn

lemma siftup_spec (heap : List QEntry) (x : QEntry)
    (hlen : 0 < heap.length) (hB : HoleInvB heap 0) :
    IsHeap (siftup heap 0 x) ∧ (siftup heap 0 x).length = heap.length ∧
    ((siftup heap 0 x : List QEntry) : Multiset QEntry)
      = ((heap.set 0 x : List QEntry) : Multiset QEntry) := by
  have hD : HoleInvD heap 0 := by
    intro i hi0 hilen hpi h0
    exact absurd h0 (lt_irrefl 0)
  obtain ⟨l1, l2, l3, l4, l5⟩ :=
    siftupLoopF_spec (heap.length + 1) 0 heap (by omega) hlen hB hD
  have hsu : siftup heap 0 x
      = siftdownF ((siftupLoopF (heap.length + 1) heap 0).2 + 1)
          ((siftupLoopF (heap.length + 1) heap 0).1.set
            (siftupLoopF (heap.length + 1) heap 0).2 x)
          0 (siftupLoopF (heap.length + 1) heap 0).2 x := rfl
  have hlen2 : (siftupLoopF (heap.length + 1) heap 0).2
      < ((siftupLoopF (heap.length + 1) heap 0).1.set
          (siftupLoopF (heap.length + 1) heap 0).2 x).length := by
    rw [List.length_set, l1]
    exact l2
  have hB2 : HoleInvB ((siftupLoopF (heap.length + 1) heap 0).1.set
      (siftupLoopF (heap.length + 1) heap 0).2 x)
      (siftupLoopF (heap.length + 1) heap 0).2 := by
    intro i hi0 hilen hir hpir
    rw [List.length_set] at hilen
    rw [keyAt_set_ne _ _ i x (fun h => hir h.symm),
      keyAt_set_ne _ _ (parentIdx i) x (fun h => hpir h.symm)]
    exact l4 i hi0 hilen hir hpir
  have hC2 : HoleInvC ((siftupLoopF (heap.length + 1) heap 0).1.set
      (siftupLoopF (heap.length + 1) heap 0).2 x)
      (siftupLoopF (heap.length + 1) heap 0).2 x := by
    intro i hi0 hilen hpi
    rw [List.length_set, l1] at hilen
    rcases parentIdx_child_cases i _ hi0 hpi with h1 | h1 <;> omega
  have hD2 : HoleInvD ((siftupLoopF (heap.length + 1) heap 0).1.set
      (siftupLoopF (heap.length + 1) heap 0).2 x)
      (siftupLoopF (heap.length + 1) heap 0).2 := by
    intro i hi0 hilen hpi h0
    rw [List.length_set, l1] at hilen
    rcases parentIdx_child_cases i _ hi0 hpi with h1 | h1 <;> omega
  obtain ⟨m1, m2, m3⟩ := siftdownF_spec
    ((siftupLoopF (heap.length + 1) heap 0).2 + 1)
    (siftupLoopF (heap.length + 1) heap 0).2
    ((siftupLoopF (heap.length + 1) heap 0).1.set
      (siftupLoopF (heap.length + 1) heap 0).2 x) x
    (by omega) hlen2 hB2 hC2 hD2
  rw [hsu]
  refine ⟨m1, ?_, ?_⟩
  · rw [m2, List.length_set, l1]
  · rw [m3, List.set_set]
    exact l5 x

lemma getD_append_lt (l l2 : List QEntry) (j : Nat) (d : QEntry)
    (h : j < l.length) : (l ++ l2).getD j d = l.getD j d := by
  induction l generalizing j with
  | nil => simp at h
  | cons a t ih =>
    cases j with
    | zero => rfl
    | succ k =>
      have hk : k < t.length := by simpa using h
      simpa using ih k hk

lemma getD_append_length (l : List QEntry) (x d : QEntry) :
    (l ++ [x]).getD l.length d = x := by
  induction l with
  | nil => rfl
  | cons a t ih => exact ih

lemma heappush_spec (l : List QEntry) (x : QEntry) (hl : IsHeap l) :
    IsHeap (heappush l x) ∧ (heappush l x).Perm (x :: l) ∧
    (heappush l x).length = l.length + 1 := by
  have hpush : heappush l x
      = siftdownF (l.length + 1) (l ++ [x]) 0 l.length x := rfl
  have hlen : l.length < (l ++ [x]).length := by simp
  have hB : HoleInvB (l ++ [x]) l.length := by
    intro i hi0 hilen hip hpip
    have hil : i < l.length := by
      rw [List.length_append] at hilen
      simp only [List.length_singleton] at hilen
      omega
    have hpil : parentIdx i < l.length :=
      lt_trans (parentIdx_lt i hi0) hil
    unfold keyAt
    rw [getD_append_lt l [x] i default hil,
      getD_append_lt l [x] (parentIdx i) default hpil]
    exact hl i hi0 hil
  have hC : HoleInvC (l ++ [x]) l.length x := by
    intro i hi0 hilen hpi
    rw [List.length_append, List.length_singleton] at hilen
    rcases parentIdx_child_cases i l.length hi0 hpi with h1 | h1 <;> omega
  have hD : HoleInvD (l ++ [x]) l.length := by
    intro i hi0 hilen hpi h0
    rw [List.length_append, List.length_singleton] at hilen
    rcases parentIdx_child_cases i l.length hi0 hpi with h1 | h1 <;> omega
  obtain ⟨m1, m2, m3⟩ := siftdownF_spec (l.length + 1) l.length
    (l ++ [x]) x (by omega) hlen hB hC hD
  have hms := multiset_set (l ++ [x]) l.length x hlen
  rw [getD_append_length l x default] at hms
  have hset : (((l ++ [x]).set l.length x : List QEntry) :
      Multiset QEntry) = ((l ++ [x] : List QEntry) : Multiset QEntry) :=
    add_right_cancel hms
  rw [hset] at m3
  rw [hpush]
  refine ⟨m1, ?_, by rw [m2]; simp⟩
  exact (Multiset.coe_eq_coe.mp m3).trans (List.perm_append_singleton x l)

lemma dropLast_getD (l : List QEntry) (j : Nat) (d : QEntry)
    (h : j < l.dropLast.length) : l.dropLast.getD j d = l.getD j d := by
  induction l generalizing j with
  | nil => simp at h
  | cons a t ih =>
    cases t with
    | nil => simp at h
    | cons b t2 =>
      cases j with
      | zero => rfl
      | succ k =>
        have hk : k < (b :: t2).dropLast.length := by simpa using h
        simpa using ih k hk

lemma dropLast_append_getLastD : ∀ l : List QEntry, l ≠ [] →
    l.dropLast ++ [l.getLastD default] = l := by
  intro l
  induction l with
  | nil => intro h; exact absurd rfl h
  | cons a t ih =>
    intro _
    cases t with
    | nil => rfl
    | cons b t2 =>
      have hgl : (a :: b :: t2).getLastD default
          = (b :: t2).getLastD default := rfl
      have hdl : (a :: b :: t2).dropLast = a :: (b :: t2).dropLast := rfl
      rw [hdl, hgl, List.cons_append, ih (by simp)]

end GaudiConn

namespace GaudiConn

lemma heappop_spec (l : List QEntry) (hl : IsHeap l) (hne : l ≠ []) :
    ∃ e l2, heappop l = some (e, l2) ∧ IsHeap l2 ∧
      l2.length + 1 = l.length ∧ l.Perm (e :: l2) ∧
      ∀ y ∈ l, e.priority ≤ y.priority := by
  have hmin : ∀ y ∈ l, (l.getD 0 default).priority ≤ y.priority := by
    intro y hy
    obtain ⟨i, hi, hyi⟩ := List.mem_iff_getElem.mp hy
    have hk := keyAt_zero_le l hl i hi
    unfold keyAt at hk
    rw [List.getD_eq_getElem l default hi, hyi] at hk
    exact hk
  cases l with
  | nil => exact absurd rfl hne
  | cons a t =>
    cases t with
    | nil =>
      refine ⟨a, [], rfl, ?_, rfl, List.Perm.refl _, ?_⟩
      · intro i h1 h2
        simp at h2
      · intro y hy
        have hya : y = a := by simpa using hy
        rw [hya]
    | cons b t2 =>
      have hpop : heappop (a :: b :: t2)
          = some ((a :: b :: t2).dropLast.getD 0 default,
              siftup ((a :: b :: t2).dropLast.set 0
                ((a :: b :: t2).getLastD default)) 0
                ((a :: b :: t2).getLastD default)) := rfl
      have hrlen : 0 < (a :: b :: t2).dropLast.length := by simp
      have hB : HoleInvB ((a :: b :: t2).dropLast.set 0
          ((a :: b :: t2).getLastD default)) 0 := by
        intro i hi0 hilen hi0b hpib
        rw [List.length_set] at hilen
        rw [keyAt_set_ne _ 0 i _ (fun h => hi0b h.symm),
          keyAt_set_ne _ 0 (parentIdx i) _ (fun h => hpib h.symm)]
        have hil : i < (a :: b :: t2).length := by
          rw [List.length_dropLast] at hilen
          omega
        have hpil : parentIdx i < (a :: b :: t2).dropLast.length :=
          lt_trans (parentIdx_lt i hi0) hilen
        unfold keyAt
        rw [dropLast_getD _ i _ hilen, dropLast_getD _ (parentIdx i) _ hpil]
        exact hl i hi0 hil
      obtain ⟨s1, s2, s3⟩ := siftup_spec
        ((a :: b :: t2).dropLast.set 0 ((a :: b :: t2).getLastD default))
        ((a :: b :: t2).getLastD default)
        (by rw [List.length_set]; exact hrlen) hB
      refine ⟨(a :: b :: t2).dropLast.getD 0 default, _, hpop, s1, ?_, ?_, ?_⟩
      · rw [s2, List.length_set, List.length_dropLast]
        simp
      · have h1 : ((siftup ((a :: b :: t2).dropLast.set 0
              ((a :: b :: t2).getLastD default)) 0
              ((a :: b :: t2).getLastD default) : List QEntry) :
                Multiset QEntry)
            = (((a :: b :: t2).dropLast.set 0
                ((a :: b :: t2).getLastD default) : List QEntry) :
                  Multiset QEntry) := by
          rw [s3, List.set_set]
        have h2 := multiset_set ((a :: b :: t2).dropLast) 0
          ((a :: b :: t2).getLastD default) hrlen
        have h3 : (((a :: b :: t2).dropLast : List QEntry) :
              Multiset QEntry) + {(a :: b :: t2).getLastD default}
            = ((a :: b :: t2 : List QEntry) : Multiset QEntry) := by
          rw [← Multiset.coe_singleton, Multiset.coe_add,
            dropLast_append_getLastD _ (by simp)]
        have h4 : ((siftup ((a :: b :: t2).dropLast.set 0
              ((a :: b :: t2).getLastD default)) 0
              ((a :: b :: t2).getLastD default) : List QEntry) :
                Multiset QEntry) +
              {(a :: b :: t2).dropLast.getD 0 default}
            = ((a :: b :: t2 : List QEntry) : Multiset QEntry) := by
          rw [h1, h2, h3]
        have h5 : (((a :: b :: t2).dropLast.getD 0 default ::
              siftup ((a :: b :: t2).dropLast.set 0
                ((a :: b :: t2).getLastD default)) 0
                ((a :: b :: t2).getLastD default) : List QEntry) :
                  Multiset QEntry)
            = ((a :: b :: t2 : List QEntry) : Multiset QEntry) := by
          rw [← Multiset.cons_coe, ← Multiset.singleton_add, add_comm]
          exact h4
        exact (Multiset.coe_eq_coe.mp h5).symm
      · intro y hy
        rw [dropLast_getD _ 0 _ hrlen]
        exact hmin y hy

lemma pushAll_spec : ∀ (items acc : List QEntry), IsHeap acc →
    IsHeap (items.foldl heappush acc) ∧
    (items.foldl heappush acc).Perm (acc ++ items) := by
  intro items
  induction items with
  | nil => intro acc h; exact ⟨h, by simp⟩
  | cons x t ih =>
    intro acc h
    obtain ⟨h1, h2, _⟩ := heappush_spec acc x h
    obtain ⟨g1, g2⟩ := ih (heappush acc x) h1
    refine ⟨g1, ?_⟩
    have step1 : (t.foldl heappush (heappush acc x)).Perm ((x :: acc) ++ t) :=
      g2.trans (h2.append_right t)
    exact step1.trans List.perm_middle.symm

lemma drainF_spec : ∀ (fuel : Nat) (l : List QEntry), IsHeap l →
    l.length ≤ fuel →
    (drainF fuel l).Perm l ∧
    (drainF fuel l).Sorted (fun x y => x.priority ≤ y.priority) := by
  intro fuel
  induction fuel with
  | zero =>
    intro l hl hlen
    have hn : l = [] := List.eq_nil_of_length_eq_zero (by omega)
    subst hn
    exact ⟨List.Perm.refl _, List.sorted_nil⟩
  | succ f ih =>
    intro l hl hlen
    by_cases hne : l = []
    · subst hne
      exact ⟨List.Perm.refl _, List.sorted_nil⟩
    · obtain ⟨e, l2, hpe, hh2, hlen2, hperm, hminp⟩ :=
        heappop_spec l hl hne
      have hdr : drainF (f + 1) l = e :: drainF f l2 := by
        simp only [drainF]
        rw [hpe]
      rw [hdr]
      obtain ⟨g1, g2⟩ := ih l2 hh2 (by omega)
      constructor
      · exact (g1.cons e).trans hperm.symm
      · rw [List.sorted_cons]
        refine ⟨?_, g2⟩
        intro b hb
        have hbl2 : b ∈ l2 := (g1.mem_iff).mp hb
        have hbl : b ∈ l := (hperm.mem_iff).mpr (List.mem_cons_of_mem e hbl2)
        exact hminp b hbl

/-- Claim C8 (amended). The pool serves pending requests in ascending
priority order: pushing preserves the heap invariant and adds the request,
and every pop of a nonempty valid heap returns a pending request of minimal
priority together with a valid heap of the remaining requests; draining a
batch of submissions yields a permutation of it sorted by ascending
priority. Among requests of equal priority, however, the service order is
the binary-heap order, not the submission order. -/
theorem C8_theorem :
    (∀ (l : List QEntry) (x : QEntry), IsHeap l →
      IsHeap (heappush l x) ∧ (heappush l x).Perm (x :: l)) ∧
    (∀ l : List QEntry, IsHeap l → l ≠ [] →
      ∃ e l2, heappop l = some (e, l2) ∧ IsHeap l2 ∧ l.Perm (e :: l2) ∧
        ∀ y ∈ l, e.priority ≤ y.priority) ∧
    (∀ items : List QEntry,
      IsHeap (pushAll items) ∧ (pushAll items).Perm items) ∧
    (∀ l : List QEntry, IsHeap l →
      (drain l).Perm l ∧
      (drain l).Sorted (fun x y => x.priority ≤ y.priority)) := by
  refine ⟨?_, ?_, ?_, ?_⟩
  · intro l x hl
    obtain ⟨h1, h2, _⟩ := heappush_spec l x hl
    exact ⟨h1, h2⟩
  · intro l hl hne
    obtain ⟨e, l2, hp, hh, _, hperm, hmin⟩ := heappop_spec l hl hne
    exact ⟨e, l2, hp, hh, hperm, hmin⟩
  · intro items
    have hinit : IsHeap ([] : List QEntry) := by
      intro i h1 h2
      simp at h2
    obtain ⟨h1, h2⟩ := pushAll_spec items [] hinit
    exact ⟨h1, by simpa using h2⟩
  · intro l hl
    exact drainF_spec l.length l hl (le_refl _)

/-- Witness for C8: the push branch of the theorem applied to the empty
queue and one request. -/
theorem C8_witness :
    IsHeap (heappush [] ⟨1, 0⟩) ∧ (heappush [] ⟨1, 0⟩).Perm [⟨1, 0⟩] :=
  C8_theorem.1 [] ⟨1, 0⟩ (by intro i h1 h2; simp at h2)

/-- Claim C8 fails in its FIFO part: four requests of equal priority
submitted in seq order 0, 1, 2, 3 are served in the order 0, 2, 1, 3 by the
heapq-backed queue, not in submission order. (Ascending priority holds; the
tie-break does not.) -/
theorem C8_counterexample :
    drain (pushAll [⟨0, 0⟩, ⟨0, 1⟩, ⟨0, 2⟩, ⟨0, 3⟩])
      = [⟨0, 0⟩, ⟨0, 2⟩, ⟨0, 1⟩, ⟨0, 3⟩] ∧
    drain (pushAll [⟨0, 0⟩, ⟨0, 1⟩, ⟨0, 2⟩, ⟨0, 3⟩])
      ≠ [⟨0, 0⟩, ⟨0, 1⟩, ⟨0, 2⟩, ⟨0, 3⟩] ∧
    ([⟨0, 0⟩, ⟨0, 1⟩, ⟨0, 2⟩, ⟨0, 3⟩] : List QEntry).all
        (fun e => e.priority == 0) = true := by decide

end GaudiConn
